import Mathlib

/-!
# datatype-lib: bounded queue, the categorizer manager and the request trace

Shallow embedding of

* `src/data_type/queue.go` (`Queue`, `NewQueue`, `Len`, `IsEmpty`, `IsFull`, `Push`, `First`, `Pop`);
* `src/blockchain/evm/categorizer/manager.go`: the body of the receive loop of
  `Manager.subscribe` (lines 345-379), one pass of the loop of
  `Manager.categorize_old_smartcontracts` (lines 194-248), the body of the registration
  loop of `Manager.Start` (lines 154-177), `Manager.add_current_workers` and the dispatch
  of one block in `Manager.categorize_current_smartcontracts` (lines 275-301) and one
  pass of its loop (lines 264-303);
* `src/message/request.go`: `Request.IsFirst`, `Request.SyncTrace`, `Request.Bytes` and
  `Request.ZmqEnvelope`;
* `src/blockchain/network/type.go`: `NetworkType`, `NewNetworkType` and `valid`.

Unsigned 64-bit values are natural numbers; additions are reduced modulo 2^64.

A Go `interface{}` value is either `nil` or a pair of a dynamic type and a payload.
`reflect.TypeOf` returns the `nil` type for the `nil` interface value and the dynamic
type otherwise; `reflect.Type` values are compared with `==`.
-/

namespace DataType

/-- A Go interface value: the nil interface, or a payload together with its dynamic type. -/
inductive Iface (τ α : Type) where
  | nil : Iface τ α
  | val (t : τ) (v : α) : Iface τ α
deriving DecidableEq, Repr

/-- Go `reflect.TypeOf`: the nil `reflect.Type` (here `none`) for the nil interface value. -/
def TypeOf {τ α : Type} : Iface τ α → Option τ
  | Iface.nil => none
  | Iface.val t _ => some t

/-- The struct `Queue` of queue.go: the list, the capacity `length` (a Go `int`) and the
pinned element type (nil, here `none`, until it is set). -/
structure Queue (τ α : Type) where
  l : List (Iface τ α)
  length : Int
  elementType : Option τ
deriving DecidableEq, Repr

/-- The constant `QueueLength` of queue.go. -/
def QueueLength : Int := 10

/-- The function `NewQueue`: no pinned type, capacity `QueueLength`, empty list. -/
def NewQueue {τ α : Type} : Queue τ α :=
  { elementType := none, length := QueueLength, l := [] }

namespace Queue

variable {τ α : Type}

/-- The method `Len`: `q.l.Len()`. -/
def Len (q : Queue τ α) : Int := (q.l.length : Int)

/-- The method `IsEmpty`: `q.l.Len() == 0`. -/
def IsEmpty (q : Queue τ α) : Bool := decide (q.Len = 0)

/-- The method `IsFull`: `q.l.Len() == q.length`. -/
def IsFull (q : Queue τ α) : Bool := decide (q.Len = q.length)

/-- The method `Push` (queue.go lines 56-66). -/
def Push [DecidableEq τ] (q : Queue τ α) (item : Iface τ α) : Queue τ α :=
  if q.IsFull then q
  else if q.elementType = none then
    { q with elementType := TypeOf item, l := q.l ++ [item] }
  else if TypeOf item = q.elementType then
    { q with l := q.l ++ [item] }
  else q

/-- The method `First` (queue.go lines 70-75): the front value, nil when empty. -/
def First (q : Queue τ α) : Iface τ α :=
  if q.IsEmpty then Iface.nil
  else
    match q.l with
    | [] => Iface.nil
    | x :: _ => x

/-- The method `Pop` (queue.go lines 79-84): the returned value and the queue afterwards. -/
def Pop (q : Queue τ α) : Iface τ α × Queue τ α :=
  if q.IsEmpty then (Iface.nil, q)
  else
    match q.l with
    | [] => (Iface.nil, q)
    | x :: xs => (x, { q with l := xs })

/-- Pushing the items of a list in order, with no other call in between. -/
def pushAll [DecidableEq τ] (q : Queue τ α) : List (Iface τ α) → Queue τ α
  | [] => q
  | x :: xs => pushAll (q.Push x) xs

/-- Calling `Pop` `n` times: the returned values in call order and the queue afterwards. -/
def popN (q : Queue τ α) : Nat → List (Iface τ α) × Queue τ α
  | 0 => ([], q)
  | n + 1 =>
    let r := q.Pop
    let rest := popN r.2 n
    (r.1 :: rest.1, rest.2)

end Queue

/-- One call on a queue by a client of the package. -/
inductive QueueOp (τ α : Type) where
  | push (item : Iface τ α) : QueueOp τ α
  | pop : QueueOp τ α
  | first : QueueOp τ α
deriving DecidableEq, Repr

/-- The queue after one call; `First` does not modify the queue. -/
def Queue.applyOp {τ α : Type} [DecidableEq τ] (q : Queue τ α) : QueueOp τ α → Queue τ α
  | QueueOp.push item => q.Push item
  | QueueOp.pop => q.Pop.2
  | QueueOp.first => q

/-- The queue after a finite sequence of calls, made in list order. -/
def Queue.run {τ α : Type} [DecidableEq τ] (q : Queue τ α) : List (QueueOp τ α) → Queue τ α
  | [] => q
  | op :: ops => Queue.run (q.applyOp op) ops

/-- The items pushed by a sequence of calls, in call order. -/
def pushedItems {τ α : Type} : List (QueueOp τ α) → List (Iface τ α)
  | [] => []
  | QueueOp.push item :: ops => item :: pushedItems ops
  | _ :: ops => pushedItems ops

/-- The dynamic types that occur in this development. -/
inductive RType where
  | ptrBlock : RType
  | int : RType
  | string : RType
deriving DecidableEq, Repr

/-- A full queue of ten integers, as `NewQueue` and ten accepted pushes leave it. -/
def fullIntQueue : Queue RType Int :=
  { l := List.replicate 10 (Iface.val RType.int 7), length := 10, elementType := some RType.int }

/-- A queue of integers holding one element, and the empty queue it came from. -/
def oneIntQueue : Queue RType Int := (NewQueue : Queue RType Int).Push (Iface.val RType.int 5)

/-- Three integers pushed in this order. -/
def threeInts : List (Iface RType Int) :=
  [Iface.val RType.int 1, Iface.val RType.int 2, Iface.val RType.int 3]

/-- Fifteen integers 1..15, as fifteen broadcast blocks arrive in this order. -/
def fifteenInts : List (Iface RType Int) :=
  (List.range 15).map (fun i => Iface.val RType.int ((i : Int) + 1))

end DataType

namespace Categorizer

open DataType

/-- Modelled from the spec: the raw log record of the `blockchain/event` package, which is
not among the sources; the spec gives it as (block_number, address, topics, data). -/
structure Log where
  block_number : Nat
  address : String
  topics : List String
  data : String
deriving DecidableEq, Repr

/-- Modelled from the spec: the live block of the `blockchain/evm/block` package, which is
not among the sources; the spec gives it as (network_id, block_number, block_timestamp,
list of raw logs). -/
structure Block where
  NetworkId : String
  BlockNumber : Nat
  BlockTimestamp : Nat
  Logs : List Log
deriving DecidableEq, Repr

/-- Modelled from the spec: the constructor `spaghetti_block.NewBlock`, which is not among
the sources; it builds the live block from its four arguments. -/
def NewBlock (network_id : String) (block_number : Nat) (block_timestamp : Nat)
    (logs : List Log) : Block :=
  { NetworkId := network_id, BlockNumber := block_number,
    BlockTimestamp := block_timestamp, Logs := logs }

/-- The field of `network.Network` that the manager reads. -/
structure Network where
  Id : String
deriving DecidableEq, Repr

/-- Modelled from the spec: the contract descriptor of the `categorizer/smartcontract`
package, which is not among the sources; the spec gives it as (address, recorded block
number, recorded timestamp), and manager.go reads `Address` and `CategorizedBlockNumber`. -/
structure Smartcontract where
  Address : String
  CategorizedBlockNumber : Nat
  CategorizedBlockTimestamp : Nat
deriving DecidableEq, Repr

/-- Modelled from the spec: the worker of one contract (the file of the type is not among
the sources): the contract descriptor with its progress, and the handle of the decoder. -/
structure Worker where
  smartcontract : Smartcontract
  abi : String
deriving DecidableEq, Repr

/-- Modelled from the spec: the group of old workers (the file of the type is not among
the sources): the cursor `block_number` and the workers; manager.go reads both. -/
structure OldWorkerGroup where
  block_number : Nat
  workers : List Worker
deriving DecidableEq, Repr

/-- The fields of the struct `Manager` (manager.go lines 37-49); the push socket and the
logger are left out, what is sent on the socket is returned by the steps instead. -/
structure Manager where
  Network : Network
  old_categorizers : List OldWorkerGroup
  current_workers : List Worker
  subscribed_earliest_block_number : Nat
  subscribed_blocks : Queue RType Block
deriving DecidableEq, Repr

/-- The function `NewManager` (manager.go lines 53-71). -/
def NewManager (network : Network) : Manager :=
  { Network := network, old_categorizers := [], subscribed_blocks := NewQueue,
    subscribed_earliest_block_number := 0, current_workers := [] }

/-- The values that one iteration of the subscriber loop reads from the parsed broadcast
(manager.go lines 352-373): `block_number`, `network_id`, `block_timestamp` and the logs,
each as returned by its getter with the error result discarded. -/
structure BroadcastReply where
  block_number : Nat
  network_id : String
  block_timestamp : Nat
  logs : List Log
deriving DecidableEq, Repr

/-- The live block as the subscriber stores it: a `*spaghetti_block.Block` in an interface. -/
def blockItem (b : Block) : Iface RType Block := Iface.val RType.ptrBlock b

/-- One iteration of the receive loop of `Manager.subscribe` (manager.go lines 352-378),
after the message has been received. -/
def Manager.subscribe_iteration (manager : Manager) (reply : BroadcastReply) : Manager :=
  if reply.network_id ≠ manager.Network.Id then manager
  else if manager.subscribed_earliest_block_number ≠ 0 ∧
      reply.block_number < manager.subscribed_earliest_block_number then manager
  else
    let manager1 : Manager :=
      if manager.subscribed_earliest_block_number = 0 then
        { manager with subscribed_earliest_block_number := reply.block_number }
      else manager
    let new_block :=
      NewBlock manager1.Network.Id reply.block_number reply.block_timestamp reply.logs
    { manager1 with subscribed_blocks := manager1.subscribed_blocks.Push (blockItem new_block) }

/-- Line 273 of manager.go, `manager.subscribed_blocks.Pop().(*spaghetti_block.Block)`:
the block taken and the manager afterwards; `none` stands for the run-time panic of a
failed type assertion. -/
def Manager.pop_block (manager : Manager) : Option (Block × Manager) :=
  match manager.subscribed_blocks.Pop with
  | (Iface.val RType.ptrBlock b, q) => some (b, { manager with subscribed_blocks := q })
  | _ => none

/-- A step that changes the subscriber state of a manager: one received broadcast, or
one block taken from the queue by the live driver. -/
inductive ManagerOp where
  | broadcast (reply : BroadcastReply) : ManagerOp
  | pop : ManagerOp
deriving DecidableEq, Repr

/-- The manager after one step; a panicking pop leaves no later state, so the state stays. -/
def Manager.applyOp (manager : Manager) : ManagerOp → Manager
  | ManagerOp.broadcast reply => manager.subscribe_iteration reply
  | ManagerOp.pop =>
    match manager.pop_block with
    | some r => r.2
    | none => manager

/-- The manager after a finite sequence of steps, made in list order. -/
def Manager.run (manager : Manager) : List ManagerOp → Manager
  | [] => manager
  | op :: ops => Manager.run (manager.applyOp op) ops

/-- The pinned element type of the block queue is unset or is `*spaghetti_block.Block`. -/
def Manager.queuePinnedToBlocks (manager : Manager) : Prop :=
  manager.subscribed_blocks.elementType = none ∨
    manager.subscribed_blocks.elementType = some RType.ptrBlock

instance Manager.decidableQueuePinnedToBlocks (manager : Manager) :
    Decidable manager.queuePinnedToBlocks := by
  unfold Manager.queuePinnedToBlocks
  exact inferInstance

/-- A broadcast of the given network for the block with the given number, without logs. -/
def broadcastOf (network_id : String) (block_number : Nat) : BroadcastReply :=
  { block_number := block_number, network_id := network_id,
    block_timestamp := 1700000000 + block_number, logs := [] }

/-- A fresh manager of network "1": no broadcast seen yet, so the live edge is 0. -/
def freshManager : Manager := NewManager { Id := "1" }

/-- The manager of network "1" after its first broadcast, for block 1000. -/
def liveManager : Manager := freshManager.subscribe_iteration (broadcastOf "1" 1000)

/-- Modelled from the spec: the decoded event that `worker.categorize` returns (the type
is not among the sources); the spec gives it as (block_number, block_timestamp, address,
event_name, structured argument map). -/
structure EventLog where
  BlockNumber : Nat
  BlockTimestamp : Nat
  Address : String
  Name : String
  Parameters : List (String × String)
deriving DecidableEq, Repr

/-- The two values returned by one call of `worker.categorize(logs)`, and the worker after
the call (the method updates the progress of the worker it is called on). -/
structure CategorizeResult where
  categorized_logs : List EventLog
  recent_block_number : Nat
  worker : Worker
deriving DecidableEq, Repr

/-- The message sent on the push socket: `message.Request` with an empty command and the
parameters `smartcontracts` and `logs` (manager.go lines 218-231 and 284-297). -/
structure PushMessage where
  smartcontracts : List Smartcontract
  logs : List EventLog
deriving DecidableEq, Repr

/-- The sum of two `uint64` values, as Go computes it. -/
def uint64_add (a b : Nat) : Nat := (a + b) % 2 ^ 64

/-- Modelled from the spec: `spaghetti_log.FilterByAddress`, which is not among the
sources; the response filtered to the logs of one address, in order. -/
def FilterByAddress (all_logs : List Log) (address : String) : List Log :=
  all_logs.filter (fun log => decide (log.address = address))

/-- Modelled from the spec: `Block.GetForSmartcontract`, which is not among the sources;
the lookup "logs for address A" of the live block. -/
def Block.GetForSmartcontract (block : Block) (address : String) : List Log :=
  block.Logs.filter (fun log => decide (log.address = address))

/-- Modelled from the spec: `worker.categorize`, which is not among the sources. The logs
of the address of the worker above its progress are decoded (a log that fails to decode
is dropped); the second result is the maximum block number among them, or the progress
of the worker when there is none; the progress is raised to that value. -/
def Worker.categorize (decode : Log → Option EventLog) (worker : Worker)
    (logs : List Log) : CategorizeResult :=
  let surviving := logs.filter (fun log =>
    decide (log.address = worker.smartcontract.Address ∧
      worker.smartcontract.CategorizedBlockNumber < log.block_number))
  let recent_block_number :=
    surviving.foldl (fun acc log => max acc log.block_number)
      worker.smartcontract.CategorizedBlockNumber
  { categorized_logs := surviving.filterMap decode
    recent_block_number := recent_block_number
    worker := { worker with smartcontract :=
      { worker.smartcontract with
        CategorizedBlockNumber :=
          max worker.smartcontract.CategorizedBlockNumber recent_block_number } } }

/-- The method `Manager.add_current_workers` (manager.go lines 254-256). -/
def Manager.add_current_workers (manager : Manager) (workers : List Worker) : Manager :=
  { manager with current_workers := manager.current_workers ++ workers }

/-- The state of the worker loop of one catch-up pass (manager.go lines 209-235) when it
ends: the workers of the group after the pass, the variable `block_number_to`, the
messages sent on the push socket, and the second result of every `worker.categorize`
call, the last two in call order. -/
structure GroupPass where
  workers : List Worker
  block_number_to : Nat
  pushes : List PushMessage
  recent_block_numbers : List Nat
deriving DecidableEq, Repr

/-- The worker loop of one catch-up pass (manager.go lines 210-235) from the given value
of `block_number_to`; `categorize` is the method `worker.categorize`. -/
def categorize_group_workers (categorize : Worker → List Log → CategorizeResult)
    (all_logs : List Log) : List Worker → Nat → GroupPass
  | [], block_number_to =>
    { workers := [], block_number_to := block_number_to, pushes := [],
      recent_block_numbers := [] }
  | worker :: rest, block_number_to =>
    let logs := FilterByAddress all_logs worker.smartcontract.Address
    if logs.length = 0 then
      let pass := categorize_group_workers categorize all_logs rest block_number_to
      { pass with workers := worker :: pass.workers }
    else
      let result := categorize worker logs
      let pass :=
        categorize_group_workers categorize all_logs rest result.recent_block_number
      { workers := result.worker :: pass.workers
        block_number_to := pass.block_number_to
        pushes :=
          { smartcontracts := [result.worker.smartcontract],
            logs := result.categorized_logs } :: pass.pushes
        recent_block_numbers := result.recent_block_number :: pass.recent_block_numbers }

/-- The outcome of one pass of the loop of `categorize_old_smartcontracts`: the manager
afterwards, the messages sent on the push socket, the second results of the
`worker.categorize` calls made, the from-block of the range query, the value of
`group.block_number` when the pass ends, and whether the loop was left (the `break` of
line 244, followed by the deletion of the group at line 248). -/
structure CatchUpStep where
  manager : Manager
  pushes : List PushMessage
  recent_block_numbers : List Nat
  block_number_from : Nat
  block_number : Nat
  finished : Bool
deriving DecidableEq, Repr

/-- One pass of the loop of `Manager.categorize_old_smartcontracts` (manager.go lines
194-246, and line 248 when the loop is left) for the group at position `i` of
`manager.old_categorizers`. `response` is what `RemoteLogFilter` returned, an error or
the logs. Modelled from the spec: `OldWorkerGroups.Delete`, which is not among the
sources, removes the group by identity and keeps the order of the others. -/
def Manager.categorize_old_iteration (manager : Manager) (i : Nat)
    (categorize : Worker → List Log → CategorizeResult)
    (response : Except String (List Log)) : CatchUpStep :=
  match manager.old_categorizers[i]? with
  | none =>
    { manager := manager, pushes := [], recent_block_numbers := [], block_number_from := 0,
      block_number := 0, finished := false }
  | some group =>
    let block_number_from := uint64_add group.block_number 1
    match response with
    | Except.error _ =>
      { manager := manager, pushes := [], recent_block_numbers := [],
        block_number_from := block_number_from, block_number := group.block_number,
        finished := false }
    | Except.ok all_logs =>
      let pass := categorize_group_workers categorize all_logs group.workers block_number_from
      let group1 : OldWorkerGroup :=
        { block_number := pass.block_number_to, workers := pass.workers }
      if manager.subscribed_earliest_block_number ≤ pass.block_number_to then
        let manager1 := manager.add_current_workers group1.workers
        { manager := { manager1 with old_categorizers := manager1.old_categorizers.eraseIdx i }
          pushes := pass.pushes, recent_block_numbers := pass.recent_block_numbers
          block_number_from := block_number_from, block_number := group1.block_number
          finished := true }
      else
        { manager := { manager with old_categorizers := manager.old_categorizers.set i group1 }
          pushes := pass.pushes, recent_block_numbers := pass.recent_block_numbers
          block_number_from := block_number_from, block_number := group1.block_number
          finished := false }

/-- The order of the sort of the workers: by progress, ties by address. -/
def Worker.sortsBefore (a b : Worker) : Prop :=
  a.smartcontract.CategorizedBlockNumber < b.smartcontract.CategorizedBlockNumber ∨
    (a.smartcontract.CategorizedBlockNumber = b.smartcontract.CategorizedBlockNumber ∧
      a.smartcontract.Address.data ≤ b.smartcontract.Address.data)

instance Worker.decidableSortsBefore : DecidableRel Worker.sortsBefore := by
  intro a b
  unfold Worker.sortsBefore
  exact inferInstance

/-- Modelled from the spec: `EvmWorkers.Sort`, which is not among the sources; a sort by
`categorized_block_number` ascending, ties broken by address. -/
def SortWorkers (workers : List Worker) : List Worker :=
  workers.insertionSort Worker.sortsBefore

/-- Modelled from the spec: `EvmWorkers.Split`, which is not among the sources; the
workers below the pivot and the workers at or above it, each in the order of the list. -/
def Split (workers : List Worker) (block_number : Nat) : List Worker × List Worker :=
  (workers.filter (fun w => decide (w.smartcontract.CategorizedBlockNumber < block_number)),
    workers.filter (fun w => decide (block_number ≤ w.smartcontract.CategorizedBlockNumber)))

/-- Modelled from the spec: `EvmWorkers.EarliestBlockNumber`, which is not among the
sources; the minimum of `categorized_block_number` across the set. The spec leaves the
value on the empty set undefined: it is the parameter `earliest_of_empty`. -/
def EarliestBlockNumber (earliest_of_empty : Nat) : List Worker → Nat
  | [] => earliest_of_empty
  | w :: ws =>
    ws.foldl (fun acc x => min acc x.smartcontract.CategorizedBlockNumber)
      w.smartcontract.CategorizedBlockNumber

/-- Modelled from the spec: `OldWorkerGroups.FirstGroupGreaterThan`, which is not among
the sources; the first group whose cursor is at least the block number, with its
position in the list, or none. -/
def FirstGroupGreaterThan : List OldWorkerGroup → Nat → Option (Nat × OldWorkerGroup)
  | [], _ => none
  | group :: rest, block_number =>
    if block_number ≤ group.block_number then some (0, group)
    else (FirstGroupGreaterThan rest block_number).map (fun r => (r.1 + 1, r.2))

/-- Modelled from the spec: the constructor `NewGroup`, which is not among the sources. -/
def NewGroup (block_number : Nat) (workers : List Worker) : OldWorkerGroup :=
  { block_number := block_number, workers := workers }

/-- Modelled from the spec: `OldWorkerGroup.add_workers`, which is not among the sources;
the workers are added behind the workers of the group. -/
def OldWorkerGroup.add_workers (group : OldWorkerGroup) (workers : List Worker) :
    OldWorkerGroup :=
  { group with workers := group.workers ++ workers }

/-- The outcome of one registration: the manager afterwards, the worker set on which
`EarliestBlockNumber` was called, and the positions in `old_categorizers` of the groups for
which a catch-up goroutine was started (line 169). -/
structure RegistrationStep where
  manager : Manager
  earliest_argument : List Worker
  started_drivers : List Nat
deriving DecidableEq, Repr

/-- The body of the registration loop of `Manager.Start` from line 154 on, for the
workers `new_workers` built from the request (manager.go lines 154-177). -/
def Manager.register (manager : Manager) (earliest_of_empty : Nat)
    (new_workers : List Worker) : RegistrationStep :=
  let block_number := manager.subscribed_earliest_block_number
  let split := Split (SortWorkers new_workers) block_number
  let old_workers := split.1
  let current_workers := split.2
  let old_block_number := EarliestBlockNumber earliest_of_empty old_workers
  match FirstGroupGreaterThan manager.old_categorizers old_block_number with
  | none =>
    let group := NewGroup old_block_number old_workers
    let manager1 : Manager :=
      { manager with old_categorizers := manager.old_categorizers ++ [group] }
    { manager := manager1.add_current_workers current_workers
      earliest_argument := old_workers
      started_drivers := [manager.old_categorizers.length] }
  | some (i, group) =>
    let manager1 : Manager :=
      { manager with
        old_categorizers := manager.old_categorizers.set i (group.add_workers old_workers) }
    { manager := manager1.add_current_workers current_workers
      earliest_argument := old_workers
      started_drivers := [] }

/-- The quantity |current_workers| + the sum over the old groups of |group.workers|. -/
def Manager.worker_count (manager : Manager) : Nat :=
  manager.current_workers.length +
    (manager.old_categorizers.map (fun group => group.workers.length)).sum

/-- The workers of a list of old groups, group by group. -/
def groups_workers : List OldWorkerGroup → List Worker
  | [] => []
  | group :: rest => group.workers ++ groups_workers rest

/-- The addresses of all workers of the manager: the old groups first, then the current
workers (the order of `Manager.GetSmartcontracts`, manager.go lines 74-84). -/
def Manager.worker_addresses (manager : Manager) : List String :=
  (groups_workers manager.old_categorizers ++ manager.current_workers).map
    (fun w => w.smartcontract.Address)

/-- A step that changes the workers of a manager, or the live edge they are split at. -/
inductive WorkerOp where
  | register (new_workers : List Worker) : WorkerOp
  | catch_up (i : Nat) (response : Except String (List Log)) : WorkerOp
  | broadcast (reply : BroadcastReply) : WorkerOp

/-- The manager after one such step. -/
def Manager.applyWorkerOp (categorize : Worker → List Log → CategorizeResult)
    (earliest_of_empty : Nat) (manager : Manager) : WorkerOp → Manager
  | WorkerOp.register new_workers => (manager.register earliest_of_empty new_workers).manager
  | WorkerOp.catch_up i response =>
    (manager.categorize_old_iteration i categorize response).manager
  | WorkerOp.broadcast reply => manager.subscribe_iteration reply

/-- The manager after a finite sequence of such steps, made in list order. -/
def Manager.runWorkerOps (categorize : Worker → List Log → CategorizeResult)
    (earliest_of_empty : Nat) (manager : Manager) : List WorkerOp → Manager
  | [] => manager
  | op :: ops =>
    Manager.runWorkerOps categorize earliest_of_empty
      (manager.applyWorkerOp categorize earliest_of_empty op) ops

/-- The workers that a sequence of steps registers, in order. -/
def registered_workers : List WorkerOp → List Worker
  | [] => []
  | WorkerOp.register new_workers :: ops => new_workers ++ registered_workers ops
  | _ :: ops => registered_workers ops

/-- What the dispatch of one live block does: the current workers afterwards, the
arguments of the `worker.categorize` calls made, and the messages sent on the push
socket, the last two in call order. -/
structure LiveDispatch where
  workers : List Worker
  categorize_calls : List (Worker × List Log)
  pushes : List PushMessage
deriving DecidableEq, Repr

/-- The worker loop of the live driver for one popped block (manager.go lines 275-301);
`categorize` is the method `worker.categorize`, and every send succeeds. -/
def dispatch_block (categorize : Worker → List Log → CategorizeResult) (block : Block) :
    List Worker → LiveDispatch
  | [] => { workers := [], categorize_calls := [], pushes := [] }
  | worker :: rest =>
    let later := dispatch_block categorize block rest
    if block.BlockNumber ≤ worker.smartcontract.CategorizedBlockNumber then
      { later with workers := worker :: later.workers }
    else
      let logs := block.GetForSmartcontract worker.smartcontract.Address
      let result := categorize worker logs
      { workers := result.worker :: later.workers
        categorize_calls := (worker, logs) :: later.categorize_calls
        pushes :=
          { smartcontracts := [result.worker.smartcontract],
            logs := result.categorized_logs } :: later.pushes }

/-- The workers of a group that one catch-up pass calls `worker.categorize` on: those
with at least one log of their address in the response. -/
def categorized_workers (all_logs : List Log) (workers : List Worker) : List Worker :=
  workers.filter (fun w =>
    decide ((FilterByAddress all_logs w.smartcontract.Address).length ≠ 0))

/-- The maximum of a list of block numbers, 0 for the empty list. -/
def max_block_number (block_numbers : List Nat) : Nat :=
  block_numbers.foldr max 0

/-- A decoder for the examples: every log decodes to a `Transfer` event. -/
def transferDecode (log : Log) : Option EventLog :=
  some { BlockNumber := log.block_number, BlockTimestamp := 0, Address := log.address,
         Name := "Transfer", Parameters := [] }

/-- A worker of the given address and progress. -/
def workerOf (address : String) (block_number : Nat) : Worker :=
  { smartcontract :=
      { Address := address, CategorizedBlockNumber := block_number,
        CategorizedBlockTimestamp := 0 },
    abi := "[]" }

/-- A raw log of the given address in the given block. -/
def logOf (address : String) (block_number : Nat) : Log :=
  { block_number := block_number, address := address, topics := ["0xddf2"], data := "0x" }

/-- The manager of network "1" with the live edge at block 10000. -/
def edgeManager : Manager := freshManager.subscribe_iteration (broadcastOf "1" 10000)

/-- The manager after the registration of the workers of "0xa" (block 100) and "0xb"
(block 120): both are in one new group with the cursor at 100. -/
def groupedManager : Manager :=
  (edgeManager.register 0 [workerOf "0xa" 100, workerOf "0xb" 120]).manager

/-- The live block 1001 of network "1" with one log of "0xa" and one log of "0xb". -/
def block1001 : Block := NewBlock "1" 1001 1700001001 [logOf "0xa" 1001, logOf "0xb" 1001]

/-- The manager with the live edge at 10000 and one group with the cursor at 500. -/
def oneGroupManager : Manager :=
  { edgeManager with
    old_categorizers := [{ block_number := 500, workers := [workerOf "0xa" 500] }] }

/-- The network "1" broadcasts block 10000, then two requests register the same contract
"0xa". -/
def sameAddressInTwoRequests : List WorkerOp :=
  [WorkerOp.broadcast (broadcastOf "1" 10000),
   WorkerOp.register [workerOf "0xa" 100],
   WorkerOp.register [workerOf "0xa" 100]]

/-- The network "1" broadcasts block 10000, then one request registers the contract "0xa"
twice. -/
def sameAddressTwiceInOneRequest : List WorkerOp :=
  [WorkerOp.broadcast (broadcastOf "1" 10000),
   WorkerOp.register [workerOf "0xa" 10000, workerOf "0xa" 10000]]

/-- The network "1" broadcasts block 10000, two contracts are registered and a catch-up
pass promotes them. -/
def distinctAddressesRun : List WorkerOp :=
  [WorkerOp.broadcast (broadcastOf "1" 10000),
   WorkerOp.register [workerOf "0xa" 100, workerOf "0xb" 120],
   WorkerOp.catch_up 0 (Except.ok [logOf "0xa" 9000, logOf "0xb" 10000])]

/-- How far a run of the block loop of the live driver got: it went back to the polling
tick, it stopped in a run-time panic, or it is still in the loop when the steps that
were followed are used up. -/
inductive DrainOutcome where
  | returned : DrainOutcome
  | panicked : DrainOutcome
  | running : DrainOutcome
deriving DecidableEq, Repr

/-- What one pass of the live driver did: the manager afterwards, the blocks taken from
the queue in order, the messages sent on the push socket in order, and how it ended. -/
structure DrainPass where
  manager : Manager
  popped : List Block
  pushes : List PushMessage
  outcome : DrainOutcome
deriving DecidableEq, Repr

/-- The block loop of `categorize_current_smartcontracts` (manager.go lines 272-302),
whose first statement is the pop with the type assertion of line 273, followed for at
most `fuel` rounds. The loop has no `break` and no `return`: a round ends in the next round
or in the panic of the type assertion. Every send succeeds. -/
def Manager.consume_blocks (categorize : Worker → List Log → CategorizeResult) :
    Nat → Manager → DrainPass
  | 0, manager => { manager := manager, popped := [], pushes := [], outcome := DrainOutcome.running }
  | fuel + 1, manager =>
    match manager.pop_block with
    | none =>
      { manager := manager, popped := [], pushes := [], outcome := DrainOutcome.panicked }
    | some (block, manager1) =>
      let dispatch := dispatch_block categorize block manager1.current_workers
      let manager2 : Manager := { manager1 with current_workers := dispatch.workers }
      let later := Manager.consume_blocks categorize fuel manager2
      { manager := later.manager, popped := block :: later.popped,
        pushes := dispatch.pushes ++ later.pushes, outcome := later.outcome }

/-- One pass of the outer loop of `categorize_current_smartcontracts` (manager.go lines
264-303) after the sleep: back to the tick when there is no current worker or the queue
is empty, the block loop otherwise. -/
def Manager.categorize_current_iteration (manager : Manager)
    (categorize : Worker → List Log → CategorizeResult) (fuel : Nat) : DrainPass :=
  if manager.current_workers.length = 0 ∨ manager.subscribed_blocks.IsEmpty = true then
    { manager := manager, popped := [], pushes := [], outcome := DrainOutcome.returned }
  else manager.consume_blocks categorize fuel

/-- The passes of the loop of `categorize_old_smartcontracts` for the group at position
`i`, one for each response in order, until the loop is left: the manager afterwards and
whether the loop was left. -/
def Manager.catch_up_run (manager : Manager) (i : Nat)
    (categorize : Worker → List Log → CategorizeResult) :
    List (Except String (List Log)) → Manager × Bool
  | [] => (manager, false)
  | response :: later =>
    let step := manager.categorize_old_iteration i categorize response
    if step.finished then (step.manager, true)
    else Manager.catch_up_run step.manager i categorize later

/-- The manager of network "1" with the live edge at 1000, the current worker of "0xa"
and the blocks 1000 and 1001 in the queue. -/
def drainManager : Manager :=
  ((liveManager.register 0 [workerOf "0xa" 1000]).manager).subscribe_iteration
    { block_number := 1001, network_id := "1", block_timestamp := 1700001001,
      logs := [logOf "0xa" 1001] }

/-- The manager with the live edge at 10000 and one group with the cursor at 9998. -/
def nearEdgeManager : Manager :=
  { edgeManager with
    old_categorizers := [{ block_number := 9998, workers := [workerOf "0xa" 9998] }] }

end Categorizer

namespace Message

/-- The struct `Stack` of request.go (lines 12-19). -/
structure Stack where
  RequestTime : Nat
  ReplyTime : Nat
  Command : String
  ServiceUrl : String
  ServerName : String
  ServerInstance : String
deriving DecidableEq, Repr

/-- The type `key_value.KeyValue` is not among the sources: the keys with their values,
each value kept as its JSON text. -/
structure KeyValue where
  entries : List (String × String)
deriving DecidableEq, Repr

/-- The struct `Request` of request.go (lines 65-72); `Trace` holds the stacks that the
pointers of the Go slice point to. -/
structure Request where
  Uuid : String
  Trace : List Stack
  Command : String
  Parameters : KeyValue
  publicKey : String
  conId : String
deriving DecidableEq, Repr

/-- The method `Request.Traces` (request.go lines 93-95). -/
def Request.Traces (request : Request) : List Stack := request.Trace

/-- The method `Request.IsFirst` (request.go lines 100-102). -/
def Request.IsFirst (request : Request) : Bool := decide (request.Trace.length = 0)

/-- The method `Request.SyncTrace` (request.go lines 105-112); `reply_traces` is what
`reply.Traces()` returns. -/
def Request.SyncTrace (request : Request) (reply_traces : List Stack) : Request :=
  let repTraceLen := reply_traces.length
  let reqTraceLen := request.Traces.length
  if repTraceLen > reqTraceLen then
    { request with Trace := request.Trace ++ reply_traces.drop reqTraceLen }
  else request

/-- A stack of the given command. -/
def stackOf (command : String) : Stack :=
  { RequestTime := 1, ReplyTime := 0, Command := command, ServiceUrl := "inproc://a",
    ServerName := "a", ServerInstance := "a-1" }

/-- A request whose trace holds one stack. -/
def tracedRequest : Request :=
  { Uuid := "u", Trace := [stackOf "first"], Command := "cmd", Parameters := { entries := [] },
    publicKey := "", conId := "" }

/-- The trace of a reply that went through two more services. -/
def replyTraces : List Stack := [stackOf "first", stackOf "second", stackOf "third"]

/-- The functions that `Request.Bytes` calls and that are not among the sources:
`ValidCommand` (its error, if any), `key_value.NewFromInterface` and `KeyValue.Bytes`.
An error is kept as its message, the bytes as the text they encode. -/
structure Serializer where
  ValidCommand : String → Option String
  NewFromInterface : Request → Except String KeyValue
  Bytes : KeyValue → Except String String

/-- The method `Request.Bytes` (request.go lines 128-145). -/
def Request.Bytes (serializer : Serializer) (request : Request) : Except String String :=
  match serializer.ValidCommand request.Command with
  | some err => Except.error ("failed to validate command: " ++ err)
  | none =>
    match serializer.NewFromInterface request with
    | Except.error err => Except.error ("failed to serialize Request to key-value: " ++ err)
    | Except.ok kv =>
      match serializer.Bytes kv with
      | Except.error err => Except.error ("kv.Bytes: " ++ err)
      | Except.ok bytes => Except.ok bytes

/-- The method `Request.ZmqEnvelope` (request.go lines 167-179); `len(request.conId)` is
the number of bytes of the string. -/
def Request.ZmqEnvelope (serializer : Serializer) (request : Request) :
    Except String (List String) :=
  match request.Bytes serializer with
  | Except.error err => Except.error ("request.ZmqEnvelope: " ++ err)
  | Except.ok bytes =>
    let str := bytes
    if request.conId.utf8ByteSize > 0 then Except.ok [request.conId, "", str]
    else Except.ok ["", str]

/-- A serializer for the examples: the empty command is not valid, and the body of a
request is its command in braces. -/
def exampleSerializer : Serializer :=
  { ValidCommand := fun command => if command = "" then some "command is empty" else none
    NewFromInterface := fun request => Except.ok { entries := [("command", request.Command)] }
    Bytes := fun kv => Except.ok ("(" ++ String.intercalate "," (kv.entries.map (fun e => e.2))
      ++ ")") }

/-- A request that came in on the connection "con-7". -/
def routedRequest : Request := { tracedRequest with conId := "con-7" }

/-- A request whose command is empty. -/
def emptyCommandRequest : Request := { tracedRequest with Command := "" }

end Message

namespace BlockchainNetwork

/-- The type `NetworkType` of type.go: a string. -/
abbrev NetworkType := String

/-- The constant `ALL`. -/
def ALL : NetworkType := "all"

/-- The constant `EVM`. -/
def EVM : NetworkType := "evm"

/-- The constant `IMX`. -/
def IMX : NetworkType := "imx"

/-- The method `NetworkType.valid` (type.go lines 23-25). -/
def NetworkType.valid (network_type : NetworkType) : Bool :=
  network_type == ALL || network_type == EVM || network_type == IMX

/-- The function `NewNetworkType` (type.go lines 13-20): the value and the error, `none`
for the nil error. -/
def NewNetworkType (network_type : String) : NetworkType × Option String :=
  let new_type : NetworkType := network_type
  if !NetworkType.valid new_type then (new_type, some "unsupported network type")
  else (new_type, none)

end BlockchainNetwork

/-! ## The queue -/

namespace DataType

variable {τ α : Type}

theorem Queue.push_of_full [DecidableEq τ] (q : Queue τ α) (item : Iface τ α) (h : q.IsFull = true) :
    q.Push item = q := by
  simp [Queue.Push, h]

theorem Queue.push_accept_unpinned [DecidableEq τ] (q : Queue τ α) (item : Iface τ α)
    (hf : q.IsFull = false) (ht : q.elementType = none) :
    q.Push item = { q with elementType := TypeOf item, l := q.l ++ [item] } := by
  simp [Queue.Push, hf, ht]

theorem Queue.push_accept_pinned [DecidableEq τ] (q : Queue τ α) (item : Iface τ α) (t : τ)
    (hf : q.IsFull = false) (ht : q.elementType = some t) (hi : TypeOf item = some t) :
    q.Push item = { q with l := q.l ++ [item] } := by
  simp [Queue.Push, hf, ht, hi]

theorem Queue.push_reject_pinned [DecidableEq τ] (q : Queue τ α) (item : Iface τ α) (t : τ)
    (ht : q.elementType = some t) (hi : TypeOf item ≠ some t) :
    q.Push item = q := by
  unfold Queue.Push
  split
  · rfl
  · simp [ht, hi]

theorem Queue.push_length [DecidableEq τ] (q : Queue τ α) (item : Iface τ α) :
    (q.Push item).length = q.length := by
  unfold Queue.Push
  split
  · rfl
  · split
    · rfl
    · split <;> rfl

theorem Queue.pop_length (q : Queue τ α) : q.Pop.2.length = q.length := by
  unfold Queue.Pop
  split
  · rfl
  · split <;> rfl

/-- C1: pushing into a full queue changes nothing: the elements and their order, `Len`,
the capacity and the pinned element type stay as they were, and the capacity of a queue
made by `NewQueue` is 10. -/
theorem queue_push_full_is_noop [DecidableEq τ] (q : Queue τ α) (item : Iface τ α)
    (hfull : q.Len = q.length) :
    q.IsFull = true ∧ q.Push item = q ∧ (q.Push item).l = q.l ∧
      (q.Push item).Len = q.Len ∧ (q.Push item).elementType = q.elementType ∧
      (NewQueue : Queue τ α).length = 10 := by
  have hf : q.IsFull = true := by simp [Queue.IsFull, hfull]
  have hp := Queue.push_of_full q item hf
  refine ⟨hf, hp, ?_, ?_, ?_, rfl⟩ <;> rw [hp]

theorem queue_push_full_is_noop_witness :
    fullIntQueue.Len = fullIntQueue.length ∧
      fullIntQueue.Push (Iface.val RType.int 8) = fullIntQueue :=
  ⟨by decide, (queue_push_full_is_noop fullIntQueue (Iface.val RType.int 8) (by decide)).2.1⟩

/-- C2: evaluation at the failing input. On a fresh queue the first push is the nil
interface value, whose type is the nil type; the pinned type therefore stays unset, and a
later push of an integer, whose type differs from the type of the first pushed item, is
accepted: the queue then holds two elements of different types. -/
theorem queue_nil_first_then_other_type_is_accepted :
    TypeOf (Iface.val RType.int (1 : Int)) ≠ TypeOf (Iface.nil : Iface RType Int) ∧
      ((NewQueue : Queue RType Int).Push Iface.nil).l = [Iface.nil] ∧
      ((NewQueue : Queue RType Int).Push Iface.nil).elementType = none ∧
      (((NewQueue : Queue RType Int).Push Iface.nil).Push (Iface.val RType.int 1)).l =
        [Iface.nil, Iface.val RType.int 1] ∧
      (((NewQueue : Queue RType Int).Push Iface.nil).Push (Iface.val RType.int 1)).Len = 2 ∧
      ((NewQueue : Queue RType Int).Push Iface.nil).Len = 1 := by
  decide

theorem Queue.run_elementType_pinned [DecidableEq τ] (t : τ) (ops : List (QueueOp τ α)) :
    ∀ q : Queue τ α, q.elementType = some t → (Queue.run q ops).elementType = some t := by
  induction ops with
  | nil => intro q h; exact h
  | cons op ops ih =>
    intro q h
    apply ih
    cases op with
    | push item =>
      simp only [Queue.applyOp, Queue.Push]
      split_ifs <;> simp_all
    | pop =>
      simp only [Queue.applyOp, Queue.Pop]
      split
      · exact h
      · split <;> exact h
    | first => exact h

/-- The pinned type after any run from a fresh queue whose first pushed item is not nil
is the type of that item. -/
theorem Queue.run_new_elementType [DecidableEq τ] (t : τ) (x : Iface τ α)
    (hx : TypeOf x = some t) (ops : List (QueueOp τ α)) (rest : List (Iface τ α)) :
    ∀ q : Queue τ α, q.elementType = none → q.l = [] → q.length = 10 →
      pushedItems ops = x :: rest → (Queue.run q ops).elementType = some t := by
  induction ops with
  | nil => intro q _ _ _ hp; simp [pushedItems] at hp
  | cons op ops ih =>
    intro q ht hl hlen hp
    cases op with
    | push item =>
      simp only [pushedItems, List.cons.injEq] at hp
      obtain ⟨rfl, _⟩ := hp
      simp only [Queue.run]
      apply Queue.run_elementType_pinned
      simp [Queue.applyOp, Queue.Push, Queue.IsFull, Queue.Len, hl, hlen, ht, hx]
    | pop =>
      have : q.applyOp QueueOp.pop = q := by
        simp [Queue.applyOp, Queue.Pop, Queue.IsEmpty, Queue.Len, hl]
      simp only [Queue.run, this]
      exact ih q ht hl hlen (by simpa [pushedItems] using hp)
    | first =>
      exact ih q ht hl hlen (by simpa [pushedItems] using hp)

/-- When the first pushed item is not the nil interface value, every later push of an item
of another type (the nil value included) leaves the queue as it was. -/
theorem queue_push_other_type_after_typed_first [DecidableEq τ] (t : τ) (x item : Iface τ α)
    (ops : List (QueueOp τ α)) (rest : List (Iface τ α))
    (hops : pushedItems ops = x :: rest) (hx : TypeOf x = some t)
    (hitem : TypeOf item ≠ TypeOf x) :
    (Queue.run NewQueue ops).Push item = Queue.run NewQueue ops := by
  have h := Queue.run_new_elementType t x hx ops rest NewQueue rfl rfl rfl hops
  exact Queue.push_reject_pinned _ item t h (by rw [← hx]; exact hitem)

theorem Queue.pop_of_empty (q : Queue τ α) (h : q.IsEmpty = true) : q.Pop = (Iface.nil, q) := by
  simp [Queue.Pop, h]

theorem Queue.pop_of_cons (q : Queue τ α) (x : Iface τ α) (rest : List (Iface τ α))
    (h : q.l = x :: rest) : q.Pop = (x, { q with l := rest }) := by
  simp [Queue.Pop, Queue.IsEmpty, Queue.Len, h]
  omega

theorem queue_pop_type_kept (q : Queue τ α) : q.Pop.2.elementType = q.elementType := by
  unfold Queue.Pop
  split
  · rfl
  · split <;> rfl

/-- C3: on an empty queue `Pop` returns nil and leaves the queue as it was; on a
non-empty queue `Pop` returns the front stored element, removes exactly it, keeps the
capacity and the pinned type, and `Len` goes down by exactly 1. -/
theorem queue_pop_empty_and_nonempty (q : Queue τ α) :
    (q.IsEmpty = true → q.Pop = (Iface.nil, q)) ∧
      (q.IsEmpty = false →
        q.Pop.1 ∈ q.l ∧ q.l = q.Pop.1 :: q.Pop.2.l ∧ q.Pop.2.Len = q.Len - 1 ∧
          q.Pop.2.length = q.length ∧ q.Pop.2.elementType = q.elementType) := by
  refine ⟨Queue.pop_of_empty q, ?_⟩
  intro h
  cases hl : q.l with
  | nil => simp [Queue.IsEmpty, Queue.Len, hl] at h
  | cons x rest =>
    rw [Queue.pop_of_cons q x rest hl]
    simp [Queue.Len, hl]

theorem queue_pop_empty_and_nonempty_witness :
    (NewQueue : Queue RType Int).Pop = (Iface.nil, NewQueue) ∧
      oneIntQueue.Pop.1 = Iface.val RType.int 5 ∧ oneIntQueue.Len = 1 ∧
      oneIntQueue.Pop.2.Len = oneIntQueue.Len - 1 :=
  ⟨(queue_pop_empty_and_nonempty (NewQueue : Queue RType Int)).1 (by decide),
    by decide, by decide,
    ((queue_pop_empty_and_nonempty oneIntQueue).2 (by decide)).2.2.1⟩

theorem Queue.pushAll_l [DecidableEq τ] (t : τ) (xs : List (Iface τ α)) :
    ∀ q : Queue τ α, (∀ x ∈ xs, TypeOf x = some t) →
      (q.elementType = none ∨ q.elementType = some t) → (q.l.length : Int) ≤ q.length →
      (Queue.pushAll q xs).l = (q.l ++ xs).take q.length.toNat := by
  induction xs with
  | nil =>
    intro q _ _ hcap
    simp only [Queue.pushAll, List.append_nil]
    rw [List.take_of_length_le]
    omega
  | cons x xs ih =>
    intro q hty hpin hcap
    have hx : TypeOf x = some t := hty x (List.mem_cons_self _ _)
    have hxs : ∀ y ∈ xs, TypeOf y = some t := fun y hy => hty y (List.mem_cons_of_mem _ hy)
    simp only [Queue.pushAll]
    by_cases hf : q.IsFull = true
    · rw [Queue.push_of_full q x hf, ih q hxs hpin hcap]
      have hlen : q.length.toNat = q.l.length := by
        simp [Queue.IsFull, Queue.Len] at hf
        omega
      rw [hlen, List.take_left, List.take_left]
    · have hf2 : q.IsFull = false := by simpa using hf
      have hlt : (q.l.length : Int) < q.length := by
        simp [Queue.IsFull, Queue.Len] at hf
        omega
      have hpush : q.Push x = { q with elementType := some t, l := q.l ++ [x] } := by
        rcases hpin with h | h
        · rw [Queue.push_accept_unpinned q x hf2 h, hx]
        · rw [Queue.push_accept_pinned q x t hf2 h hx]
          cases q
          simp_all
      rw [hpush, ih _ hxs (Or.inr rfl) (by simp; omega)]
      simp

theorem Queue.popN_all (l : List (Iface τ α)) :
    ∀ q : Queue τ α, q.l = l → Queue.popN q l.length = (l, { q with l := [] }) := by
  induction l with
  | nil =>
    intro q h
    cases q
    simp_all [Queue.popN]
  | cons x rest ih =>
    intro q h
    simp only [Queue.popN, List.length_cons]
    rw [Queue.pop_of_cons q x rest h]
    simp [ih { q with l := rest } rfl]

/-- C4: the queue is first-in-first-out. Pushing at most ten non-nil items of one type
onto a fresh queue stores them in push order, and as many calls of `Pop` return them in
that order and leave the queue empty. In general `Push` either leaves the stored list
as it is or appends the item behind the last element, and `Pop` on a queue whose front
is `x` returns `x` and leaves the elements behind it. -/
theorem queue_is_fifo [DecidableEq τ] (t : τ) (xs : List (Iface τ α))
    (hty : ∀ x ∈ xs, TypeOf x = some t) (hlen : xs.length ≤ 10) :
    (Queue.pushAll NewQueue xs).l = xs ∧
      (Queue.popN (Queue.pushAll NewQueue xs) xs.length).1 = xs ∧
      (Queue.popN (Queue.pushAll NewQueue xs) xs.length).2.l = [] ∧
      (Queue.popN (Queue.pushAll NewQueue xs) xs.length).2.IsEmpty = true ∧
      (∀ (q : Queue τ α) (item : Iface τ α),
        (q.Push item).l = q.l ∨ (q.Push item).l = q.l ++ [item]) ∧
      (∀ (q : Queue τ α) (x : Iface τ α) (rest : List (Iface τ α)),
        q.l = x :: rest → q.Pop.1 = x ∧ q.Pop.2.l = rest) := by
  have hl : (Queue.pushAll (NewQueue : Queue τ α) xs).l = xs := by
    rw [Queue.pushAll_l t xs NewQueue hty (Or.inl rfl) (by simp [NewQueue, QueueLength])]
    simp only [NewQueue, QueueLength, List.nil_append]
    exact List.take_of_length_le (by simpa using hlen)
  have hp := Queue.popN_all xs (Queue.pushAll NewQueue xs) hl
  refine ⟨hl, ?_, ?_, ?_, ?_, ?_⟩
  · rw [hp]
  · rw [hp]
  · rw [hp]; simp [Queue.IsEmpty, Queue.Len]
  · intro q item
    unfold Queue.Push
    split_ifs <;> simp
  · intro q x rest h
    rw [Queue.pop_of_cons q x rest h]
    exact ⟨rfl, rfl⟩

theorem queue_is_fifo_witness :
    (∀ x ∈ threeInts, TypeOf x = some RType.int) ∧ threeInts.length ≤ 10 ∧
      (Queue.popN (Queue.pushAll NewQueue threeInts) threeInts.length).1 = threeInts :=
  ⟨by decide, by decide, (queue_is_fifo RType.int threeInts (by decide) (by decide)).2.1⟩

theorem Queue.applyOp_capacity [DecidableEq τ] (q : Queue τ α) (op : QueueOp τ α)
    (hlen : q.length = 10) (hcap : q.l.length ≤ 10) :
    (q.applyOp op).length = 10 ∧ (q.applyOp op).l.length ≤ 10 := by
  cases op with
  | push item =>
    refine ⟨by simp [Queue.applyOp, Queue.push_length, hlen], ?_⟩
    simp only [Queue.applyOp, Queue.Push]
    by_cases hf : q.IsFull = true
    · simpa [hf] using hcap
    · have hlt : q.l.length < 10 := by
        simp [Queue.IsFull, Queue.Len, hlen] at hf
        omega
      simp only [hf]
      split_ifs <;> simp <;> omega
  | pop =>
    refine ⟨by simp [Queue.applyOp, Queue.pop_length, hlen], ?_⟩
    simp only [Queue.applyOp, Queue.Pop]
    split_ifs
    · exact hcap
    · cases hl : q.l with
      | nil => exact hcap
      | cons x rest =>
        simp only [hl, List.length_cons] at hcap
        simp only
        omega
  | first => exact ⟨hlen, hcap⟩

theorem Queue.run_capacity [DecidableEq τ] (ops : List (QueueOp τ α)) :
    ∀ q : Queue τ α, q.length = 10 → q.l.length ≤ 10 →
      (Queue.run q ops).length = 10 ∧ (Queue.run q ops).l.length ≤ 10 := by
  induction ops with
  | nil => intro q h1 h2; exact ⟨h1, h2⟩
  | cons op ops ih =>
    intro q h1 h2
    have h := Queue.applyOp_capacity q op h1 h2
    exact ih _ h.1 h.2

/-- C5: capacity invariant. After every call of every finite sequence of `Push`, `Pop`
and `First` calls on a queue made by `NewQueue`, `Len` lies between 0 and 10, and
`IsFull` is true exactly when `Len` is 10. -/
theorem queue_capacity_invariant [DecidableEq τ] (ops : List (QueueOp τ α)) (k : Nat) :
    0 ≤ (Queue.run (NewQueue : Queue τ α) (ops.take k)).Len ∧
      (Queue.run (NewQueue : Queue τ α) (ops.take k)).Len ≤ 10 ∧
      ((Queue.run (NewQueue : Queue τ α) (ops.take k)).IsFull = true ↔
        (Queue.run (NewQueue : Queue τ α) (ops.take k)).Len = 10) := by
  have h := Queue.run_capacity (ops.take k) (NewQueue : Queue τ α) rfl (by simp [NewQueue])
  refine ⟨by simp [Queue.Len], ?_, ?_⟩
  · simp only [Queue.Len]
    omega
  · simp [Queue.IsFull, h.1]

/-- C6: overflow drops the newest. When ten or more non-nil items of one type are pushed
onto a fresh queue with no `Pop` in between, the queue afterwards holds exactly the first
ten of them, in push order, and is full. -/
theorem queue_overflow_keeps_first_ten [DecidableEq τ] (t : τ) (xs : List (Iface τ α))
    (hty : ∀ x ∈ xs, TypeOf x = some t) (hn : 10 ≤ xs.length) :
    (Queue.pushAll NewQueue xs).l = xs.take 10 ∧ (Queue.pushAll NewQueue xs).Len = 10 ∧
      (Queue.pushAll NewQueue xs).IsFull = true := by
  have hl : (Queue.pushAll (NewQueue : Queue τ α) xs).l = xs.take 10 := by
    rw [Queue.pushAll_l t xs NewQueue hty (Or.inl rfl) (by simp [NewQueue, QueueLength])]
    simp [NewQueue, QueueLength]
  have hlen : (Queue.pushAll (NewQueue : Queue τ α) xs).length = 10 := by
    have : ∀ (ys : List (Iface τ α)) (q : Queue τ α),
        (Queue.pushAll q ys).length = q.length := by
      intro ys
      induction ys with
      | nil => intro q; rfl
      | cons y ys ih => intro q; simp [Queue.pushAll, ih, Queue.push_length]
    rw [this]
    rfl
  have hlen2 : (Queue.pushAll (NewQueue : Queue τ α) xs).Len = 10 := by
    simp only [Queue.Len, hl, List.length_take]
    omega
  exact ⟨hl, hlen2, by simp [Queue.IsFull, hlen2, hlen]⟩

theorem queue_overflow_keeps_first_ten_witness :
    (∀ x ∈ fifteenInts, TypeOf x = some RType.int) ∧ 10 ≤ fifteenInts.length ∧
      (Queue.pushAll NewQueue fifteenInts).l =
        (List.range 10).map (fun i => Iface.val RType.int ((i : Int) + 1)) :=
  ⟨by decide, by decide,
    (queue_overflow_keeps_first_ten RType.int fifteenInts (by decide) (by decide)).1.trans
      (by decide)⟩

end DataType

/-! ## The subscriber loop of the manager -/

namespace Categorizer

open DataType

theorem Manager.subscribe_iteration_foreign (m : Manager) (reply : BroadcastReply)
    (hnet : reply.network_id ≠ m.Network.Id) : m.subscribe_iteration reply = m := by
  simp [Manager.subscribe_iteration, hnet]

theorem Manager.subscribe_iteration_late (m : Manager) (reply : BroadcastReply)
    (hedge : m.subscribed_earliest_block_number ≠ 0)
    (hlate : reply.block_number < m.subscribed_earliest_block_number) :
    m.subscribe_iteration reply = m := by
  simp [Manager.subscribe_iteration, hedge, hlate]

theorem Manager.subscribe_iteration_first (m : Manager) (reply : BroadcastReply)
    (hnet : reply.network_id = m.Network.Id) (hedge : m.subscribed_earliest_block_number = 0) :
    m.subscribe_iteration reply =
      { m with
        subscribed_earliest_block_number := reply.block_number
        subscribed_blocks := m.subscribed_blocks.Push (blockItem
          (NewBlock m.Network.Id reply.block_number reply.block_timestamp reply.logs)) } := by
  simp [Manager.subscribe_iteration, hnet, hedge]

theorem Manager.subscribe_iteration_live (m : Manager) (reply : BroadcastReply)
    (hnet : reply.network_id = m.Network.Id) (hedge : m.subscribed_earliest_block_number ≠ 0)
    (hge : m.subscribed_earliest_block_number ≤ reply.block_number) :
    m.subscribe_iteration reply =
      { m with
        subscribed_blocks := m.subscribed_blocks.Push (blockItem
          (NewBlock m.Network.Id reply.block_number reply.block_timestamp reply.logs)) } := by
  simp [Manager.subscribe_iteration, hnet, hedge, Nat.not_lt.mpr hge]

/-- C7: live-edge immutability. When the live edge is not 0, one iteration of the
subscriber loop leaves it as it was, whatever the network id and the block number of the
broadcast; an iteration that changes the live edge started with the live edge at 0. -/
theorem live_edge_is_immutable_once_set (m : Manager) (reply : BroadcastReply) :
    (m.subscribed_earliest_block_number ≠ 0 →
        (m.subscribe_iteration reply).subscribed_earliest_block_number =
          m.subscribed_earliest_block_number) ∧
      ((m.subscribe_iteration reply).subscribed_earliest_block_number ≠
          m.subscribed_earliest_block_number → m.subscribed_earliest_block_number = 0) := by
  have key : m.subscribed_earliest_block_number ≠ 0 →
      (m.subscribe_iteration reply).subscribed_earliest_block_number =
        m.subscribed_earliest_block_number := by
    intro h
    by_cases hnet : reply.network_id = m.Network.Id
    · by_cases hlate : reply.block_number < m.subscribed_earliest_block_number
      · rw [Manager.subscribe_iteration_late m reply h hlate]
      · rw [Manager.subscribe_iteration_live m reply hnet h (Nat.not_lt.mp hlate)]
    · rw [Manager.subscribe_iteration_foreign m reply hnet]
  refine ⟨key, ?_⟩
  intro hne
  by_contra h0
  exact hne (key h0)

theorem live_edge_is_immutable_once_set_witness :
    liveManager.subscribed_earliest_block_number = 1000 ∧
      (liveManager.subscribe_iteration (broadcastOf "1" 1001)).subscribed_earliest_block_number
        = liveManager.subscribed_earliest_block_number ∧
      (liveManager.subscribe_iteration (broadcastOf "1" 7)).subscribed_earliest_block_number
        = liveManager.subscribed_earliest_block_number :=
  ⟨by decide,
    (live_edge_is_immutable_once_set liveManager (broadcastOf "1" 1001)).1 (by decide),
    (live_edge_is_immutable_once_set liveManager (broadcastOf "1" 7)).1 (by decide)⟩

/-- C8: a broadcast of a foreign network is skipped. When the network id of the broadcast
differs from the network id of the manager, one iteration of the subscriber loop leaves
the manager as it was: the block queue (contents and `Len`) and the live edge are
unchanged, and a live edge of 0 stays 0. -/
theorem foreign_network_broadcast_is_skipped (m : Manager) (reply : BroadcastReply)
    (hnet : reply.network_id ≠ m.Network.Id) :
    m.subscribe_iteration reply = m ∧
      (m.subscribe_iteration reply).subscribed_blocks.l = m.subscribed_blocks.l ∧
      (m.subscribe_iteration reply).subscribed_blocks.Len = m.subscribed_blocks.Len ∧
      (m.subscribe_iteration reply).subscribed_earliest_block_number =
        m.subscribed_earliest_block_number ∧
      (m.subscribed_earliest_block_number = 0 →
        (m.subscribe_iteration reply).subscribed_earliest_block_number = 0) := by
  have h := Manager.subscribe_iteration_foreign m reply hnet
  refine ⟨h, ?_, ?_, ?_, ?_⟩ <;> rw [h]
  exact id

theorem foreign_network_broadcast_is_skipped_witness :
    (broadcastOf "56" 1001).network_id ≠ freshManager.Network.Id ∧
      freshManager.subscribe_iteration (broadcastOf "56" 1001) = freshManager ∧
      (freshManager.subscribe_iteration (broadcastOf "56" 1001)).subscribed_earliest_block_number
        = 0 :=
  ⟨by decide,
    (foreign_network_broadcast_is_skipped freshManager (broadcastOf "56" 1001) (by decide)).1,
    (foreign_network_broadcast_is_skipped freshManager (broadcastOf "56" 1001)
      (by decide)).2.2.2.2 (by decide)⟩

/-- C9: late blocks are skipped. With a live edge other than 0, a broadcast of the own
network whose block number is below the live edge leaves the manager as it was: nothing
is enqueued and neither the queue nor the live edge changes. Conversely, for every
broadcast of the own network whose block number is at least the live edge, the queue
after the iteration is the queue before it with `Push` called on the live block. -/
theorem late_block_is_skipped_else_pushed (m : Manager) (reply : BroadcastReply)
    (hnet : reply.network_id = m.Network.Id) :
    (m.subscribed_earliest_block_number ≠ 0 →
        reply.block_number < m.subscribed_earliest_block_number →
        m.subscribe_iteration reply = m ∧
          (m.subscribe_iteration reply).subscribed_blocks = m.subscribed_blocks ∧
          (m.subscribe_iteration reply).subscribed_earliest_block_number =
            m.subscribed_earliest_block_number) ∧
      (m.subscribed_earliest_block_number ≤ reply.block_number →
        (m.subscribe_iteration reply).subscribed_blocks =
          m.subscribed_blocks.Push (blockItem
            (NewBlock m.Network.Id reply.block_number reply.block_timestamp reply.logs))) := by
  constructor
  · intro hedge hlate
    have h := Manager.subscribe_iteration_late m reply hedge hlate
    refine ⟨h, ?_, ?_⟩ <;> rw [h]
  · intro hge
    by_cases hedge : m.subscribed_earliest_block_number = 0
    · rw [Manager.subscribe_iteration_first m reply hnet hedge]
    · rw [Manager.subscribe_iteration_live m reply hnet hedge hge]

theorem late_block_is_skipped_else_pushed_witness :
    (broadcastOf "1" 999).network_id = liveManager.Network.Id ∧
      liveManager.subscribed_earliest_block_number = 1000 ∧
      liveManager.subscribe_iteration (broadcastOf "1" 999) = liveManager ∧
      (liveManager.subscribe_iteration (broadcastOf "1" 1000)).subscribed_blocks =
        liveManager.subscribed_blocks.Push (blockItem
          (NewBlock "1" 1000 (broadcastOf "1" 1000).block_timestamp [])) :=
  ⟨by decide, by decide,
    ((late_block_is_skipped_else_pushed liveManager (broadcastOf "1" 999) (by decide)).1
      (by decide) (by decide)).1,
    (late_block_is_skipped_else_pushed liveManager (broadcastOf "1" 1000) (by decide)).2
      (by decide)⟩

theorem Manager.applyOp_queuePinnedToBlocks (m : Manager) (op : ManagerOp)
    (h : m.queuePinnedToBlocks) : (m.applyOp op).queuePinnedToBlocks := by
  unfold Manager.queuePinnedToBlocks at h ⊢
  cases op with
  | broadcast reply =>
    simp only [Manager.applyOp, Manager.subscribe_iteration]
    split_ifs
    · exact h
    · exact h
    · simp only [Queue.Push]
      split_ifs <;> simp_all [blockItem, TypeOf]
    · simp only [Queue.Push]
      split_ifs <;> simp_all [blockItem, TypeOf]
  | pop =>
    simp only [Manager.applyOp, Manager.pop_block]
    have hp : m.subscribed_blocks.Pop.2.elementType = m.subscribed_blocks.elementType :=
      queue_pop_type_kept m.subscribed_blocks
    split
    · rename_i r hr
      split at hr
      · rename_i b q hq
        cases hr
        have : q = m.subscribed_blocks.Pop.2 := by rw [hq]
        simpa [this, hp] using h
      · cases hr
    · exact h

theorem Manager.run_queuePinnedToBlocks (ops : List ManagerOp) :
    ∀ m : Manager, m.queuePinnedToBlocks → (Manager.run m ops).queuePinnedToBlocks := by
  induction ops with
  | nil => intro m h; exact h
  | cons op ops ih => intro m h; exact ih _ (Manager.applyOp_queuePinnedToBlocks m op h)

/-- C10: the first observed block defines the live edge. With the live edge at 0, a
broadcast of the own network with block number n sets the live edge to n, and the queue
afterwards is the queue before with `Push` called on the live block built from the
network id of the manager, n, the block timestamp and the logs of the message. A full
queue drops the block; in every manager state that `NewManager` and the subscriber and
live-driver steps produce, a queue that is not full has the block appended at the back. -/
theorem first_block_defines_live_edge (m : Manager) (reply : BroadcastReply)
    (hedge : m.subscribed_earliest_block_number = 0)
    (hnet : reply.network_id = m.Network.Id) :
    (m.subscribe_iteration reply).subscribed_earliest_block_number = reply.block_number ∧
      (m.subscribe_iteration reply).subscribed_blocks =
        m.subscribed_blocks.Push (blockItem
          (NewBlock m.Network.Id reply.block_number reply.block_timestamp reply.logs)) ∧
      (m.subscribe_iteration reply).Network = m.Network ∧
      (m.subscribed_blocks.IsFull = true →
        (m.subscribe_iteration reply).subscribed_blocks = m.subscribed_blocks) ∧
      (∀ (network : Network) (ops : List ManagerOp),
        m = Manager.run (NewManager network) ops → m.subscribed_blocks.IsFull = false →
        (m.subscribe_iteration reply).subscribed_blocks.l =
          m.subscribed_blocks.l ++ [blockItem
            (NewBlock m.Network.Id reply.block_number reply.block_timestamp reply.logs)]) := by
  rw [Manager.subscribe_iteration_first m reply hnet hedge]
  refine ⟨rfl, rfl, rfl, ?_, ?_⟩
  · intro hfull
    exact Queue.push_of_full _ _ hfull
  · intro network ops hm hfull
    have hpin : m.queuePinnedToBlocks := by
      rw [hm]
      exact Manager.run_queuePinnedToBlocks ops _ (Or.inl rfl)
    simp only
    rcases hpin with h | h
    · rw [Queue.push_accept_unpinned _ _ hfull h]
    · rw [Queue.push_accept_pinned _ (blockItem _) RType.ptrBlock hfull h rfl]

theorem first_block_defines_live_edge_witness :
    freshManager.subscribed_earliest_block_number = 0 ∧
      (broadcastOf "1" 1000).network_id = freshManager.Network.Id ∧
      (freshManager.subscribe_iteration (broadcastOf "1" 1000)).subscribed_earliest_block_number
        = 1000 ∧
      (freshManager.subscribe_iteration (broadcastOf "1" 1000)).subscribed_blocks.l =
        [blockItem (NewBlock "1" 1000 1700001000 [])] :=
  ⟨by decide, by decide,
    (first_block_defines_live_edge freshManager (broadcastOf "1" 1000) (by decide)
      (by decide)).1,
    ((first_block_defines_live_edge freshManager (broadcastOf "1" 1000) (by decide)
      (by decide)).2.2.2.2 { Id := "1" } [] (by decide) (by decide)).trans (by decide)⟩

end Categorizer

/-! ## The trace of a request -/

namespace Message

theorem Request.SyncTrace_trace (request : Request) (reply_traces : List Stack) :
    (request.SyncTrace reply_traces).Trace =
      request.Trace ++ reply_traces.drop request.Trace.length := by
  unfold Request.SyncTrace Request.Traces
  by_cases h : reply_traces.length > request.Trace.length
  · simp [h]
  · have hdrop : reply_traces.drop request.Trace.length = [] :=
      List.drop_eq_nil_of_le (Nat.le_of_not_lt h)
    simp [h, hdrop]

/-- C20: `SyncTrace` merges the extra stacks of the reply. The trace afterwards is the
trace R of the request followed by the stacks of the reply trace P from position len(R)
on when len(P) > len(R), and the request is as it was otherwise; the length afterwards
is max(len(R), len(P)), R is kept as the front part, no other field changes, and a
second `SyncTrace` with the same reply changes nothing. -/
theorem sync_trace_merges_extra_stacks (request : Request) (reply_traces : List Stack) :
    (reply_traces.length > request.Trace.length →
        (request.SyncTrace reply_traces).Trace =
          request.Trace ++ reply_traces.drop request.Trace.length) ∧
      (reply_traces.length ≤ request.Trace.length →
        request.SyncTrace reply_traces = request) ∧
      (request.SyncTrace reply_traces).Trace.length =
        max request.Trace.length reply_traces.length ∧
      (request.SyncTrace reply_traces).Trace.take request.Trace.length = request.Trace ∧
      { request.SyncTrace reply_traces with Trace := request.Trace } = request ∧
      (request.SyncTrace reply_traces).SyncTrace reply_traces =
        request.SyncTrace reply_traces := by
  have ht := Request.SyncTrace_trace request reply_traces
  have hlen : (request.SyncTrace reply_traces).Trace.length =
      max request.Trace.length reply_traces.length := by
    rw [ht, List.length_append, List.length_drop]
    omega
  refine ⟨fun _ => ht, ?_, hlen, ?_, ?_, ?_⟩
  · intro h
    simp [Request.SyncTrace, Request.Traces, Nat.not_lt.mpr h]
  · rw [ht, List.take_left]
  · simp only [Request.SyncTrace]
    split_ifs <;> rfl
  · have hle : reply_traces.length ≤ (request.SyncTrace reply_traces).Trace.length := by
      rw [hlen]
      exact Nat.le_max_right _ _
    generalize request.SyncTrace reply_traces = r at hle
    simp [Request.SyncTrace, Request.Traces, Nat.not_lt.mpr hle]

theorem sync_trace_merges_extra_stacks_witness :
    replyTraces.length > tracedRequest.Trace.length ∧
      (tracedRequest.SyncTrace replyTraces).Trace =
        [stackOf "first", stackOf "second", stackOf "third"] ∧
      tracedRequest.Trace.length ≤ tracedRequest.Trace.length ∧
      tracedRequest.SyncTrace tracedRequest.Trace = tracedRequest :=
  ⟨by decide,
    ((sync_trace_merges_extra_stacks tracedRequest replyTraces).1 (by decide)).trans
      (by decide),
    by decide,
    (sync_trace_merges_extra_stacks tracedRequest tracedRequest.Trace).2.1 (by decide)⟩

end Message

/-! ## The catch-up loop of the manager -/

namespace Categorizer

open DataType

theorem categorize_group_workers_workers (categorize : Worker → List Log → CategorizeResult)
    (all_logs : List Log) (workers : List Worker) :
    ∀ block_number_to : Nat,
      (categorize_group_workers categorize all_logs workers block_number_to).workers =
        workers.map (fun w =>
          if (FilterByAddress all_logs w.smartcontract.Address).length = 0 then w
          else (categorize w (FilterByAddress all_logs w.smartcontract.Address)).worker) := by
  induction workers with
  | nil => intro b; rfl
  | cons w rest ih =>
    intro b
    simp only [categorize_group_workers, List.map_cons]
    split_ifs <;> simp [ih]

theorem categorize_group_workers_recent (categorize : Worker → List Log → CategorizeResult)
    (all_logs : List Log) (workers : List Worker) :
    ∀ block_number_to : Nat,
      (categorize_group_workers categorize all_logs workers block_number_to).recent_block_numbers
        = (categorized_workers all_logs workers).map (fun w =>
          (categorize w (FilterByAddress all_logs w.smartcontract.Address)).recent_block_number)
      := by
  induction workers with
  | nil => intro b; rfl
  | cons w rest ih =>
    intro b
    simp only [categorize_group_workers, categorized_workers, List.filter_cons]
    split_ifs with h1 h2 h2
    · simp [h1] at h2
    · simpa [categorized_workers] using ih b
    · simp [ih, categorized_workers]
    · simp [h1] at h2

theorem categorize_group_workers_to (categorize : Worker → List Log → CategorizeResult)
    (all_logs : List Log) (workers : List Worker) :
    ∀ block_number_to : Nat,
      (categorize_group_workers categorize all_logs workers block_number_to).block_number_to =
        ((categorize_group_workers categorize all_logs workers
          block_number_to).recent_block_numbers.getLast?).getD block_number_to := by
  induction workers with
  | nil => intro b; rfl
  | cons w rest ih =>
    intro b
    simp only [categorize_group_workers]
    split_ifs
    · simpa using ih b
    · simp only
      rw [ih]
      cases hrec : (categorize_group_workers categorize all_logs rest
          (categorize w (FilterByAddress all_logs
            w.smartcontract.Address)).recent_block_number).recent_block_numbers with
      | nil => simp
      | cons x xs => simp [List.getLast?_eq_getLast]

theorem categorize_group_workers_pushes (categorize : Worker → List Log → CategorizeResult)
    (all_logs : List Log) (workers : List Worker) :
    ∀ block_number_to : Nat,
      (categorize_group_workers categorize all_logs workers block_number_to).pushes.length =
        (categorize_group_workers categorize all_logs workers
          block_number_to).recent_block_numbers.length := by
  induction workers with
  | nil => intro b; rfl
  | cons w rest ih =>
    intro b
    simp only [categorize_group_workers]
    split_ifs
    · simpa using ih b
    · simp [ih]

theorem Manager.categorize_old_iteration_error (m : Manager) (i : Nat) (group : OldWorkerGroup)
    (categorize : Worker → List Log → CategorizeResult) (e : String)
    (hg : m.old_categorizers[i]? = some group) :
    m.categorize_old_iteration i categorize (Except.error e) =
      { manager := m, pushes := [], recent_block_numbers := [],
        block_number_from := uint64_add group.block_number 1,
        block_number := group.block_number, finished := false } := by
  simp [Manager.categorize_old_iteration, hg]

theorem Manager.categorize_old_iteration_block_number (m : Manager) (i : Nat)
    (group : OldWorkerGroup) (categorize : Worker → List Log → CategorizeResult)
    (all_logs : List Log) (hg : m.old_categorizers[i]? = some group) :
    (m.categorize_old_iteration i categorize (Except.ok all_logs)).block_number =
        (categorize_group_workers categorize all_logs group.workers
          (uint64_add group.block_number 1)).block_number_to ∧
      (m.categorize_old_iteration i categorize (Except.ok all_logs)).recent_block_numbers =
        (categorize_group_workers categorize all_logs group.workers
          (uint64_add group.block_number 1)).recent_block_numbers ∧
      (m.categorize_old_iteration i categorize (Except.ok all_logs)).pushes =
        (categorize_group_workers categorize all_logs group.workers
          (uint64_add group.block_number 1)).pushes := by
  simp only [Manager.categorize_old_iteration, hg]
  split_ifs <;> exact ⟨rfl, rfl, rfl⟩

theorem Manager.categorize_old_iteration_ok (m : Manager) (i : Nat) (group : OldWorkerGroup)
    (categorize : Worker → List Log → CategorizeResult) (all_logs : List Log)
    (hg : m.old_categorizers[i]? = some group) :
    (m.subscribed_earliest_block_number ≤
          (m.categorize_old_iteration i categorize (Except.ok all_logs)).block_number →
        (m.categorize_old_iteration i categorize (Except.ok all_logs)).manager =
            { m with
              current_workers := m.current_workers ++
                (categorize_group_workers categorize all_logs group.workers
                  (uint64_add group.block_number 1)).workers
              old_categorizers := m.old_categorizers.eraseIdx i } ∧
          (m.categorize_old_iteration i categorize (Except.ok all_logs)).finished = true) ∧
      ((m.categorize_old_iteration i categorize (Except.ok all_logs)).block_number <
          m.subscribed_earliest_block_number →
        (m.categorize_old_iteration i categorize (Except.ok all_logs)).manager =
            { m with
              old_categorizers := m.old_categorizers.set i
                { block_number :=
                    (m.categorize_old_iteration i categorize (Except.ok all_logs)).block_number
                  workers := (categorize_group_workers categorize all_logs group.workers
                    (uint64_add group.block_number 1)).workers } } ∧
          (m.categorize_old_iteration i categorize (Except.ok all_logs)).finished = false) := by
  simp only [Manager.categorize_old_iteration, hg]
  split_ifs with h
  · refine ⟨fun _ => ⟨rfl, rfl⟩, fun hlt => ?_⟩
    simp only at hlt
    omega
  · refine ⟨fun hle => ?_, fun _ => ⟨rfl, rfl⟩⟩
    simp only at hle
    omega

theorem Manager.categorize_old_iteration_last (m : Manager) (i : Nat) (group : OldWorkerGroup)
    (categorize : Worker → List Log → CategorizeResult) (all_logs : List Log)
    (hg : m.old_categorizers[i]? = some group) :
    (m.categorize_old_iteration i categorize (Except.ok all_logs)).block_number =
      ((m.categorize_old_iteration i categorize
        (Except.ok all_logs)).recent_block_numbers.getLast?).getD
        (uint64_add group.block_number 1) := by
  have hb := Manager.categorize_old_iteration_block_number m i group categorize all_logs hg
  rw [hb.1, hb.2.1]
  exact categorize_group_workers_to categorize all_logs group.workers _

/-- C11 (the claim as stated fails): the group of the workers of "0xa" and "0xb" has the
cursor at 100; the response holds a log of "0xa" in block 500 and a log of "0xb" in block
300. Both workers are categorized, `worker.categorize` returns 500 and then 300, and the
cursor after the pass is 300, the value of the last worker, not the maximum 500. -/
theorem catch_up_cursor_is_last_not_maximum :
    (groupedManager.categorize_old_iteration 0 (Worker.categorize transferDecode)
        (Except.ok [logOf "0xa" 500, logOf "0xb" 300])).recent_block_numbers = [500, 300] ∧
      (groupedManager.categorize_old_iteration 0 (Worker.categorize transferDecode)
        (Except.ok [logOf "0xa" 500, logOf "0xb" 300])).block_number = 300 ∧
      (groupedManager.categorize_old_iteration 0 (Worker.categorize transferDecode)
        (Except.ok [logOf "0xa" 500, logOf "0xb" 300])).manager.old_categorizers.map
          (fun group => group.block_number) = [300] ∧
      max_block_number (groupedManager.categorize_old_iteration 0
        (Worker.categorize transferDecode)
        (Except.ok [logOf "0xa" 500, logOf "0xb" 300])).recent_block_numbers = 500 ∧
      (groupedManager.categorize_old_iteration 0 (Worker.categorize transferDecode)
        (Except.ok [logOf "0xa" 500, logOf "0xb" 300])).block_number ≠
        max_block_number (groupedManager.categorize_old_iteration 0
          (Worker.categorize transferDecode)
          (Except.ok [logOf "0xa" 500, logOf "0xb" 300])).recent_block_numbers := by
  decide

/-- C11 (amended): after a catch-up pass whose range query succeeded, `group.block_number`
is the block number returned by `worker.categorize` for the last worker of the group, in
the order of the group, that had a log in the response, and is cursor + 1 (in unsigned
64-bit arithmetic) when no worker had one; the calls are made for exactly the workers
with a log of their address, in order, and the group kept in the list has that cursor. -/
theorem catch_up_cursor_is_last_categorized (m : Manager) (i : Nat) (group : OldWorkerGroup)
    (categorize : Worker → List Log → CategorizeResult) (all_logs : List Log)
    (hg : m.old_categorizers[i]? = some group) :
    (m.categorize_old_iteration i categorize (Except.ok all_logs)).block_number =
        ((m.categorize_old_iteration i categorize
          (Except.ok all_logs)).recent_block_numbers.getLast?).getD
          (uint64_add group.block_number 1) ∧
      (m.categorize_old_iteration i categorize (Except.ok all_logs)).recent_block_numbers =
        (categorized_workers all_logs group.workers).map (fun w =>
          (categorize w (FilterByAddress all_logs
            w.smartcontract.Address)).recent_block_number) ∧
      ((m.categorize_old_iteration i categorize (Except.ok all_logs)).finished = false →
        ((m.categorize_old_iteration i categorize
          (Except.ok all_logs)).manager.old_categorizers[i]?).map
            (fun g => g.block_number) =
          some (m.categorize_old_iteration i categorize (Except.ok all_logs)).block_number) := by
  have hb := Manager.categorize_old_iteration_block_number m i group categorize all_logs hg
  have hlt : i < m.old_categorizers.length := (List.getElem?_eq_some.mp hg).1
  refine ⟨Manager.categorize_old_iteration_last m i group categorize all_logs hg, ?_, ?_⟩
  · rw [hb.2.1]
    exact categorize_group_workers_recent categorize all_logs group.workers _
  · intro hfin
    have hok := Manager.categorize_old_iteration_ok m i group categorize all_logs hg
    by_cases hle : m.subscribed_earliest_block_number ≤
        (m.categorize_old_iteration i categorize (Except.ok all_logs)).block_number
    · rw [(hok.1 hle).2] at hfin
      cases hfin
    · rw [(hok.2 (Nat.lt_of_not_le hle)).1]
      simp [List.getElem?_set_self hlt]

theorem catch_up_cursor_is_last_categorized_witness :
    groupedManager.old_categorizers[0]? =
        some { block_number := 100, workers := [workerOf "0xa" 100, workerOf "0xb" 120] } ∧
      (groupedManager.categorize_old_iteration 0 (Worker.categorize transferDecode)
        (Except.ok [logOf "0xa" 500, logOf "0xb" 300])).block_number =
        ([500, 300].getLast?).getD 101 :=
  ⟨by decide,
    (catch_up_cursor_is_last_categorized groupedManager 0
      { block_number := 100, workers := [workerOf "0xa" 100, workerOf "0xb" 120] }
      (Worker.categorize transferDecode) [logOf "0xa" 500, logOf "0xb" 300]
      (by decide)).1.trans (by decide)⟩

/-- C13: a failed range query is atomic for the group. When `RemoteLogFilter` returns an
error, the pass leaves the manager as it was (the cursor, the workers, the current
workers and the list of old groups, in which the group stays), makes no
`worker.categorize` call, sends nothing, does not leave the loop, and the next pass
queries from the same from-block, cursor + 1. -/
theorem range_query_failure_is_atomic (m : Manager) (i : Nat) (group : OldWorkerGroup)
    (categorize : Worker → List Log → CategorizeResult) (e : String)
    (response : Except String (List Log)) (hg : m.old_categorizers[i]? = some group) :
    (m.categorize_old_iteration i categorize (Except.error e)).manager = m ∧
      (m.categorize_old_iteration i categorize (Except.error e)).block_number =
        group.block_number ∧
      (m.categorize_old_iteration i categorize (Except.error e)).recent_block_numbers = [] ∧
      (m.categorize_old_iteration i categorize (Except.error e)).pushes = [] ∧
      (m.categorize_old_iteration i categorize (Except.error e)).finished = false ∧
      (m.categorize_old_iteration i categorize (Except.error e)).manager.current_workers =
        m.current_workers ∧
      (m.categorize_old_iteration i categorize (Except.error e)).manager.old_categorizers[i]? =
        some group ∧
      (m.categorize_old_iteration i categorize (Except.error e)).block_number_from =
        uint64_add group.block_number 1 ∧
      ((m.categorize_old_iteration i categorize (Except.error e)).manager.categorize_old_iteration
          i categorize response).block_number_from =
        (m.categorize_old_iteration i categorize (Except.error e)).block_number_from := by
  rw [Manager.categorize_old_iteration_error m i group categorize e hg]
  refine ⟨rfl, rfl, rfl, rfl, rfl, rfl, hg, rfl, ?_⟩
  simp only [Manager.categorize_old_iteration, hg]
  cases response with
  | error e2 => rfl
  | ok all_logs =>
    simp only
    split_ifs <;> rfl

theorem range_query_failure_is_atomic_witness :
    groupedManager.old_categorizers[0]? =
        some { block_number := 100, workers := [workerOf "0xa" 100, workerOf "0xb" 120] } ∧
      (groupedManager.categorize_old_iteration 0 (Worker.categorize transferDecode)
        (Except.error "timeout")).manager = groupedManager ∧
      (groupedManager.categorize_old_iteration 0 (Worker.categorize transferDecode)
        (Except.error "timeout")).block_number_from = 101 :=
  ⟨by decide,
    (range_query_failure_is_atomic groupedManager 0
      { block_number := 100, workers := [workerOf "0xa" 100, workerOf "0xb" 120] }
      (Worker.categorize transferDecode) "timeout" (Except.error "timeout") (by decide)).1,
    (range_query_failure_is_atomic groupedManager 0
      { block_number := 100, workers := [workerOf "0xa" 100, workerOf "0xb" 120] }
      (Worker.categorize transferDecode) "timeout" (Except.error "timeout")
      (by decide)).2.2.2.2.2.2.2.1.trans (by decide)⟩

/-- C14: promotion happens exactly at the live edge. After a pass whose range query
succeeded: when the new `group.block_number` is at least the live edge, the workers of
the group (as the pass leaves them, as many as before and in the same order) are
appended to `current_workers`, the group is removed from the list of old groups, whose
other members keep their order, and the loop is left; when the new `group.block_number`
is below the live edge, `current_workers` is unchanged, the list of old groups keeps its
members and their order, and the loop goes on. The list of old groups gets shorter
only when the new cursor is at least the live edge. -/
theorem promotion_exactly_at_live_edge (m : Manager) (i : Nat) (group : OldWorkerGroup)
    (categorize : Worker → List Log → CategorizeResult) (all_logs : List Log)
    (hg : m.old_categorizers[i]? = some group) :
    (m.subscribed_earliest_block_number ≤
          (m.categorize_old_iteration i categorize (Except.ok all_logs)).block_number →
        (m.categorize_old_iteration i categorize (Except.ok all_logs)).manager.current_workers =
            m.current_workers ++
              (categorize_group_workers categorize all_logs group.workers
                (uint64_add group.block_number 1)).workers ∧
          (m.categorize_old_iteration i categorize
              (Except.ok all_logs)).manager.old_categorizers = m.old_categorizers.eraseIdx i ∧
          (m.categorize_old_iteration i categorize
              (Except.ok all_logs)).manager.old_categorizers.length + 1 =
            m.old_categorizers.length ∧
          (m.categorize_old_iteration i categorize (Except.ok all_logs)).finished = true) ∧
      ((m.categorize_old_iteration i categorize (Except.ok all_logs)).block_number <
          m.subscribed_earliest_block_number →
        (m.categorize_old_iteration i categorize (Except.ok all_logs)).manager.current_workers =
            m.current_workers ∧
          (m.categorize_old_iteration i categorize
              (Except.ok all_logs)).manager.old_categorizers =
            m.old_categorizers.set i
              { block_number :=
                  (m.categorize_old_iteration i categorize (Except.ok all_logs)).block_number
                workers := (categorize_group_workers categorize all_logs group.workers
                  (uint64_add group.block_number 1)).workers } ∧
          (m.categorize_old_iteration i categorize
              (Except.ok all_logs)).manager.old_categorizers.length =
            m.old_categorizers.length ∧
          (m.categorize_old_iteration i categorize (Except.ok all_logs)).finished = false) ∧
      (categorize_group_workers categorize all_logs group.workers
          (uint64_add group.block_number 1)).workers.length = group.workers.length ∧
      ((m.categorize_old_iteration i categorize
            (Except.ok all_logs)).manager.old_categorizers.length < m.old_categorizers.length →
        m.subscribed_earliest_block_number ≤
          (m.categorize_old_iteration i categorize (Except.ok all_logs)).block_number) := by
  have hok := Manager.categorize_old_iteration_ok m i group categorize all_logs hg
  have hlt : i < m.old_categorizers.length := (List.getElem?_eq_some.mp hg).1
  refine ⟨?_, ?_, ?_, ?_⟩
  · intro hle
    obtain ⟨hm, hfin⟩ := hok.1 hle
    refine ⟨by rw [hm], by rw [hm], ?_, hfin⟩
    rw [hm]
    simp only [List.length_eraseIdx, hlt, if_true]
    omega
  · intro hlow
    obtain ⟨hm, hfin⟩ := hok.2 hlow
    refine ⟨by rw [hm], by rw [hm], ?_, hfin⟩
    rw [hm]
    simp
  · rw [categorize_group_workers_workers]
    simp
  · intro hshort
    by_contra hle
    have hm := (hok.2 (Nat.lt_of_not_le hle)).1
    rw [hm] at hshort
    simp at hshort

theorem promotion_exactly_at_live_edge_witness :
    groupedManager.old_categorizers[0]? =
        some { block_number := 100, workers := [workerOf "0xa" 100, workerOf "0xb" 120] } ∧
      (groupedManager.categorize_old_iteration 0 (Worker.categorize transferDecode)
        (Except.ok [logOf "0xa" 9000, logOf "0xb" 10000])).manager.current_workers =
        [workerOf "0xa" 9000, workerOf "0xb" 10000] ∧
      (groupedManager.categorize_old_iteration 0 (Worker.categorize transferDecode)
        (Except.ok [logOf "0xa" 9000, logOf "0xb" 10000])).manager.old_categorizers = [] ∧
      (groupedManager.categorize_old_iteration 0 (Worker.categorize transferDecode)
        (Except.ok [logOf "0xa" 500, logOf "0xb" 300])).manager.current_workers = [] :=
  ⟨by decide,
    ((promotion_exactly_at_live_edge groupedManager 0
      { block_number := 100, workers := [workerOf "0xa" 100, workerOf "0xb" 120] }
      (Worker.categorize transferDecode) [logOf "0xa" 9000, logOf "0xb" 10000]
      (by decide)).1 (by decide)).1.trans (by decide),
    ((promotion_exactly_at_live_edge groupedManager 0
      { block_number := 100, workers := [workerOf "0xa" 100, workerOf "0xb" 120] }
      (Worker.categorize transferDecode) [logOf "0xa" 9000, logOf "0xb" 10000]
      (by decide)).1 (by decide)).2.1.trans (by decide),
    ((promotion_exactly_at_live_edge groupedManager 0
      { block_number := 100, workers := [workerOf "0xa" 100, workerOf "0xb" 120] }
      (Worker.categorize transferDecode) [logOf "0xa" 500, logOf "0xb" 300]
      (by decide)).2.1 (by decide)).1.trans (by decide)⟩

end Categorizer

/-! ## The live driver of the manager -/

namespace Categorizer

open DataType

theorem dispatch_block_workers (categorize : Worker → List Log → CategorizeResult)
    (block : Block) (workers : List Worker) :
    (dispatch_block categorize block workers).workers =
      workers.map (fun w =>
        if block.BlockNumber ≤ w.smartcontract.CategorizedBlockNumber then w
        else (categorize w (block.GetForSmartcontract w.smartcontract.Address)).worker) := by
  induction workers with
  | nil => rfl
  | cons w rest ih =>
    simp only [dispatch_block, List.map_cons]
    split_ifs <;> simp [ih]

theorem dispatch_block_calls (categorize : Worker → List Log → CategorizeResult)
    (block : Block) (workers : List Worker) :
    (dispatch_block categorize block workers).categorize_calls =
      (workers.filter (fun w =>
        decide (w.smartcontract.CategorizedBlockNumber < block.BlockNumber))).map
        (fun w => (w, block.GetForSmartcontract w.smartcontract.Address)) := by
  induction workers with
  | nil => rfl
  | cons w rest ih =>
    simp only [dispatch_block, List.filter_cons]
    split_ifs with h1 h2 h2
    · simp at h2
      omega
    · simpa using ih
    · simp [ih]
    · simp at h2
      omega

theorem dispatch_block_pushes (categorize : Worker → List Log → CategorizeResult)
    (block : Block) (workers : List Worker) :
    (dispatch_block categorize block workers).pushes =
      (workers.filter (fun w =>
        decide (w.smartcontract.CategorizedBlockNumber < block.BlockNumber))).map
        (fun w =>
          { smartcontracts :=
              [(categorize w
                (block.GetForSmartcontract w.smartcontract.Address)).worker.smartcontract]
            logs := (categorize w
              (block.GetForSmartcontract w.smartcontract.Address)).categorized_logs }) := by
  induction workers with
  | nil => rfl
  | cons w rest ih =>
    simp only [dispatch_block, List.filter_cons]
    split_ifs with h1 h2 h2
    · simp at h2
      omega
    · simpa using ih
    · simp [ih]
    · simp at h2
      omega

/-- C19: live dispatch respects the watermark of the worker. For a popped live block and
the current workers, `worker.categorize` is called, on the logs of the block for the
address of the worker, and one message is sent, for exactly the workers whose
`CategorizedBlockNumber` is below `block.BlockNumber`, in the order of the workers; a
worker whose `CategorizedBlockNumber` is at least `block.BlockNumber` gets no call, no
message is sent for it, and it stays as it was. -/
theorem live_dispatch_respects_watermark (categorize : Worker → List Log → CategorizeResult)
    (block : Block) (workers : List Worker) :
    (dispatch_block categorize block workers).categorize_calls =
        (workers.filter (fun w =>
          decide (w.smartcontract.CategorizedBlockNumber < block.BlockNumber))).map
          (fun w => (w, block.GetForSmartcontract w.smartcontract.Address)) ∧
      (dispatch_block categorize block workers).pushes =
        (workers.filter (fun w =>
          decide (w.smartcontract.CategorizedBlockNumber < block.BlockNumber))).map
          (fun w =>
            { smartcontracts :=
                [(categorize w
                  (block.GetForSmartcontract w.smartcontract.Address)).worker.smartcontract]
              logs := (categorize w
                (block.GetForSmartcontract w.smartcontract.Address)).categorized_logs }) ∧
      (dispatch_block categorize block workers).workers =
        workers.map (fun w =>
          if block.BlockNumber ≤ w.smartcontract.CategorizedBlockNumber then w
          else (categorize w (block.GetForSmartcontract w.smartcontract.Address)).worker) ∧
      (∀ w ∈ workers,
        ((w, block.GetForSmartcontract w.smartcontract.Address) ∈
            (dispatch_block categorize block workers).categorize_calls ↔
          w.smartcontract.CategorizedBlockNumber < block.BlockNumber)) ∧
      (∀ w : Worker,
        (w.smartcontract.CategorizedBlockNumber < block.BlockNumber →
          (dispatch_block categorize block [w]).categorize_calls =
              [(w, block.GetForSmartcontract w.smartcontract.Address)] ∧
            (dispatch_block categorize block [w]).pushes.length = 1) ∧
        (block.BlockNumber ≤ w.smartcontract.CategorizedBlockNumber →
          dispatch_block categorize block [w] =
            { workers := [w], categorize_calls := [], pushes := [] })) := by
  refine ⟨dispatch_block_calls categorize block workers,
    dispatch_block_pushes categorize block workers,
    dispatch_block_workers categorize block workers, ?_, ?_⟩
  · intro w hw
    rw [dispatch_block_calls]
    simp only [List.mem_map, List.mem_filter, decide_eq_true_eq, Prod.mk.injEq]
    constructor
    · rintro ⟨w2, ⟨_, hlt⟩, rfl, _⟩
      exact hlt
    · intro hlt
      exact ⟨w, ⟨hw, hlt⟩, rfl, rfl⟩
  · intro w
    constructor
    · intro hlt
      simp [dispatch_block, Nat.not_le.mpr hlt]
    · intro hle
      simp [dispatch_block, hle]

theorem live_dispatch_respects_watermark_witness :
    (dispatch_block (Worker.categorize transferDecode) block1001
        [workerOf "0xa" 1000, workerOf "0xb" 1002]).categorize_calls =
        [(workerOf "0xa" 1000, [logOf "0xa" 1001])] ∧
      (workerOf "0xb" 1002 ∈ [workerOf "0xa" 1000, workerOf "0xb" 1002]) ∧
      ¬ ((workerOf "0xb" 1002,
          block1001.GetForSmartcontract (workerOf "0xb" 1002).smartcontract.Address) ∈
        (dispatch_block (Worker.categorize transferDecode) block1001
          [workerOf "0xa" 1000, workerOf "0xb" 1002]).categorize_calls) :=
  ⟨(live_dispatch_respects_watermark (Worker.categorize transferDecode) block1001
      [workerOf "0xa" 1000, workerOf "0xb" 1002]).1.trans (by decide),
    by decide,
    fun h => absurd (((live_dispatch_respects_watermark (Worker.categorize transferDecode)
      block1001 [workerOf "0xa" 1000, workerOf "0xb" 1002]).2.2.2.1 (workerOf "0xb" 1002)
      (by decide)).mp h) (by decide)⟩

end Categorizer

/-! ## The registration of new workers -/

namespace Categorizer

open DataType

theorem Split_perm (workers : List Worker) (block_number : Nat) :
    ((Split workers block_number).1 ++ (Split workers block_number).2).Perm workers := by
  have hcongr : workers.filter
      (fun w => decide (block_number ≤ w.smartcontract.CategorizedBlockNumber)) =
      workers.filter (fun w =>
        !decide (w.smartcontract.CategorizedBlockNumber < block_number)) := by
    apply List.filter_congr
    intro w _
    by_cases h : w.smartcontract.CategorizedBlockNumber < block_number
    · simp [h, Nat.not_le.mpr h]
    · simp [h, Nat.not_lt.mp h]
  simp only [Split]
  rw [hcongr]
  exact List.filter_append_perm _ workers

theorem SortWorkers_perm (workers : List Worker) : (SortWorkers workers).Perm workers :=
  List.perm_insertionSort _ workers

theorem Split_SortWorkers_perm (workers : List Worker) (block_number : Nat) :
    ((Split (SortWorkers workers) block_number).1 ++
      (Split (SortWorkers workers) block_number).2).Perm workers :=
  (Split_perm _ _).trans (SortWorkers_perm workers)

theorem FirstGroupGreaterThan_some (groups : List OldWorkerGroup) (block_number : Nat) :
    ∀ (i : Nat) (group : OldWorkerGroup),
      FirstGroupGreaterThan groups block_number = some (i, group) →
      groups[i]? = some group ∧ block_number ≤ group.block_number := by
  induction groups with
  | nil => intro i group h; simp [FirstGroupGreaterThan] at h
  | cons g rest ih =>
    intro i group h
    simp only [FirstGroupGreaterThan] at h
    split_ifs at h with hle
    · simp only [Option.some.injEq, Prod.mk.injEq] at h
      obtain ⟨rfl, rfl⟩ := h
      exact ⟨by simp, hle⟩
    · cases hr : FirstGroupGreaterThan rest block_number with
      | none => simp [hr] at h
      | some r =>
        simp only [hr, Option.map_some', Option.some.injEq, Prod.mk.injEq] at h
        obtain ⟨rfl, rfl⟩ := h
        have := ih r.1 r.2 hr
        simpa using this

theorem FirstGroupGreaterThan_none (groups : List OldWorkerGroup) (block_number : Nat) :
    FirstGroupGreaterThan groups block_number = none →
      ∀ group ∈ groups, group.block_number < block_number := by
  induction groups with
  | nil => intro _ group hmem; simp at hmem
  | cons g rest ih =>
    intro h group hmem
    simp only [FirstGroupGreaterThan] at h
    split_ifs at h with hle
    simp only [Option.map_eq_none'] at h
    rcases List.mem_cons.mp hmem with rfl | hmem
    · omega
    · exact ih h group hmem

theorem groups_workers_append (groups more : List OldWorkerGroup) :
    groups_workers (groups ++ more) = groups_workers groups ++ groups_workers more := by
  induction groups with
  | nil => rfl
  | cons g rest ih => simp [groups_workers, ih]

theorem groups_workers_set (groups : List OldWorkerGroup) :
    ∀ (i : Nat) (group changed : OldWorkerGroup), groups[i]? = some group →
      (groups_workers (groups.set i changed) ++ group.workers).Perm
        (groups_workers groups ++ changed.workers) := by
  induction groups with
  | nil => intro i group changed h; simp at h
  | cons g rest ih =>
    intro i group changed h
    cases i with
    | zero =>
      simp only [List.getElem?_cons_zero, Option.some.injEq] at h
      subst h
      simp only [List.set_cons_zero, groups_workers]
      calc (changed.workers ++ groups_workers rest ++ g.workers).Perm
            (g.workers ++ (changed.workers ++ groups_workers rest)) := List.perm_append_comm
        _ = g.workers ++ changed.workers ++ groups_workers rest := by simp
        _ |>.Perm (g.workers ++ groups_workers rest ++ changed.workers) := by
            rw [List.append_assoc, List.append_assoc]
            exact List.Perm.append_left _ List.perm_append_comm
    | succ j =>
      simp only [List.getElem?_cons_succ] at h
      simp only [List.set_cons_succ, groups_workers, List.append_assoc]
      exact List.Perm.append_left _ (ih j group changed h)

theorem groups_workers_eraseIdx (groups : List OldWorkerGroup) :
    ∀ (i : Nat) (group : OldWorkerGroup), groups[i]? = some group →
      (groups_workers (groups.eraseIdx i) ++ group.workers).Perm (groups_workers groups) := by
  induction groups with
  | nil => intro i group h; simp at h
  | cons g rest ih =>
    intro i group h
    cases i with
    | zero =>
      simp only [List.getElem?_cons_zero, Option.some.injEq] at h
      subst h
      simp only [List.eraseIdx_cons_zero, groups_workers]
      exact List.perm_append_comm
    | succ j =>
      simp only [List.getElem?_cons_succ] at h
      simp only [List.eraseIdx_cons_succ, groups_workers, List.append_assoc]
      exact List.Perm.append_left _ (ih j group h)

theorem worker_count_eq (m : Manager) :
    m.worker_count = (groups_workers m.old_categorizers ++ m.current_workers).length := by
  have : ∀ groups : List OldWorkerGroup,
      (groups.map (fun group => group.workers.length)).sum = (groups_workers groups).length := by
    intro groups
    induction groups with
    | nil => rfl
    | cons g rest ih => simp [groups_workers, ih]
  simp only [Manager.worker_count, this, List.length_append]
  omega

/-- The workers of the manager after a registration are, up to order, the workers before
it and the new workers. -/
theorem register_workers_perm (m : Manager) (earliest_of_empty : Nat)
    (new_workers : List Worker) :
    (groups_workers (m.register earliest_of_empty new_workers).manager.old_categorizers ++
        (m.register earliest_of_empty new_workers).manager.current_workers).Perm
      ((groups_workers m.old_categorizers ++ m.current_workers) ++ new_workers) := by
  have hsplit := Split_SortWorkers_perm new_workers m.subscribed_earliest_block_number
  generalize hold : (Split (SortWorkers new_workers) m.subscribed_earliest_block_number).1 = old
    at hsplit
  generalize hcur : (Split (SortWorkers new_workers) m.subscribed_earliest_block_number).2 = cur
    at hsplit
  simp only [Manager.register, hold, hcur]
  cases hf : FirstGroupGreaterThan m.old_categorizers (EarliestBlockNumber earliest_of_empty old)
    with
  | none =>
    simp only [Manager.add_current_workers, groups_workers_append, groups_workers, NewGroup,
      List.append_nil, List.append_assoc]
    refine List.Perm.append_left _ ?_
    calc (old ++ (m.current_workers ++ cur)).Perm ((m.current_workers ++ cur) ++ old) :=
          List.perm_append_comm
      _ = m.current_workers ++ (cur ++ old) := by simp
      _ |>.Perm (m.current_workers ++ new_workers) :=
          List.Perm.append_left _ (List.perm_append_comm.trans hsplit)
  | some r =>
    obtain ⟨i, group⟩ := r
    have hg := (FirstGroupGreaterThan_some _ _ i group hf).1
    have hset := groups_workers_set m.old_categorizers i group (group.add_workers old) hg
    simp only [OldWorkerGroup.add_workers] at hset
    simp only [Manager.add_current_workers, OldWorkerGroup.add_workers]
    have h1 : (groups_workers (m.old_categorizers.set i
        { block_number := group.block_number, workers := group.workers ++ old })).Perm
        (groups_workers m.old_categorizers ++ old) := by
      have h2 : (groups_workers m.old_categorizers ++ (group.workers ++ old)).Perm
          ((groups_workers m.old_categorizers ++ old) ++ group.workers) := by
        rw [List.append_assoc]
        exact List.Perm.append_left _ List.perm_append_comm
      exact (List.perm_append_right_iff group.workers).mp (hset.trans h2)
    calc (groups_workers (m.old_categorizers.set i
            { block_number := group.block_number, workers := group.workers ++ old })
            ++ (m.current_workers ++ cur)).Perm
          ((groups_workers m.old_categorizers ++ old) ++ (m.current_workers ++ cur)) :=
          List.Perm.append_right _ h1
      _ = groups_workers m.old_categorizers ++ (old ++ (m.current_workers ++ cur)) := by simp
      _ |>.Perm (groups_workers m.old_categorizers ++ ((m.current_workers ++ cur) ++ old)) :=
          List.Perm.append_left _ List.perm_append_comm
      _ = groups_workers m.old_categorizers ++ (m.current_workers ++ (cur ++ old)) := by simp
      _ |>.Perm (groups_workers m.old_categorizers ++ (m.current_workers ++ new_workers)) :=
          List.Perm.append_left _
            (List.Perm.append_left _ (List.perm_append_comm.trans hsplit))
      _ = (groups_workers m.old_categorizers ++ m.current_workers) ++ new_workers := by simp

/-- C15: registration is count-preserving. After the registration of N workers the
quantity |current_workers| + the sum over the old groups of |group.workers| is larger by
exactly N than before. -/
theorem registration_is_count_preserving (m : Manager) (earliest_of_empty : Nat)
    (new_workers : List Worker) :
    (m.register earliest_of_empty new_workers).manager.worker_count =
      m.worker_count + new_workers.length := by
  rw [worker_count_eq, worker_count_eq,
    (register_workers_perm m earliest_of_empty new_workers).length_eq, List.length_append]

theorem foldl_min_spec (workers : List Worker) :
    ∀ init : Nat,
      workers.foldl (fun acc x => min acc x.smartcontract.CategorizedBlockNumber) init ≤ init ∧
      (∀ w ∈ workers,
        workers.foldl (fun acc x => min acc x.smartcontract.CategorizedBlockNumber) init ≤
          w.smartcontract.CategorizedBlockNumber) ∧
      (workers.foldl (fun acc x => min acc x.smartcontract.CategorizedBlockNumber) init = init ∨
        ∃ w ∈ workers, w.smartcontract.CategorizedBlockNumber =
          workers.foldl (fun acc x => min acc x.smartcontract.CategorizedBlockNumber) init) := by
  induction workers with
  | nil => intro init; simp
  | cons x rest ih =>
    intro init
    obtain ⟨h1, h2, h3⟩ := ih (min init x.smartcontract.CategorizedBlockNumber)
    simp only [List.foldl_cons]
    refine ⟨le_trans h1 (Nat.min_le_left _ _), ?_, ?_⟩
    · intro w hw
      rcases List.mem_cons.mp hw with rfl | hw
      · exact le_trans h1 (Nat.min_le_right _ _)
      · exact h2 w hw
    · rcases h3 with h | ⟨w, hw, h⟩
      · rcases Nat.le_total init x.smartcontract.CategorizedBlockNumber with hle | hle
        · left
          rw [h, Nat.min_eq_left hle]
        · right
          exact ⟨x, List.mem_cons_self _ _, by rw [h, Nat.min_eq_right hle]⟩
      · right
        exact ⟨w, List.mem_cons_of_mem _ hw, h⟩

theorem EarliestBlockNumber_spec (earliest_of_empty : Nat) (workers : List Worker)
    (hne : workers ≠ []) :
    (∀ w ∈ workers,
        EarliestBlockNumber earliest_of_empty workers ≤ w.smartcontract.CategorizedBlockNumber) ∧
      ∃ w ∈ workers,
        w.smartcontract.CategorizedBlockNumber = EarliestBlockNumber earliest_of_empty workers := by
  cases workers with
  | nil => exact absurd rfl hne
  | cons x rest =>
    obtain ⟨h1, h2, h3⟩ := foldl_min_spec rest x.smartcontract.CategorizedBlockNumber
    simp only [EarliestBlockNumber]
    constructor
    · intro w hw
      rcases List.mem_cons.mp hw with rfl | hw
      · exact h1
      · exact h2 w hw
    · rcases h3 with h | ⟨w, hw, h⟩
      · exact ⟨x, List.mem_cons_self _ _, h.symm⟩
      · exact ⟨w, List.mem_cons_of_mem _ hw, h⟩

/-- C18: join-or-create for behind workers. For a registration whose behind set is not
empty, b is the least `CategorizedBlockNumber` of the behind set. When the lookup
returns a group G (then G is in the list and its cursor is at least b), the behind set
is added behind the workers of G, the list of old groups keeps its length and no
catch-up driver is started. When the lookup returns none, exactly one group, with
`block_number` b and the behind set as its workers, is appended to the list of old
groups and exactly one catch-up driver is started, for that group. -/
theorem registration_joins_or_creates (m : Manager) (earliest_of_empty : Nat)
    (new_workers : List Worker)
    (hne : (Split (SortWorkers new_workers) m.subscribed_earliest_block_number).1 ≠ []) :
    ((∀ w ∈ (Split (SortWorkers new_workers) m.subscribed_earliest_block_number).1,
          EarliestBlockNumber earliest_of_empty
              (Split (SortWorkers new_workers) m.subscribed_earliest_block_number).1 ≤
            w.smartcontract.CategorizedBlockNumber) ∧
        ∃ w ∈ (Split (SortWorkers new_workers) m.subscribed_earliest_block_number).1,
          w.smartcontract.CategorizedBlockNumber =
            EarliestBlockNumber earliest_of_empty
              (Split (SortWorkers new_workers) m.subscribed_earliest_block_number).1) ∧
      (∀ (i : Nat) (G : OldWorkerGroup),
        FirstGroupGreaterThan m.old_categorizers
            (EarliestBlockNumber earliest_of_empty
              (Split (SortWorkers new_workers) m.subscribed_earliest_block_number).1) =
          some (i, G) →
        m.old_categorizers[i]? = some G ∧
          EarliestBlockNumber earliest_of_empty
              (Split (SortWorkers new_workers) m.subscribed_earliest_block_number).1 ≤
            G.block_number ∧
          (m.register earliest_of_empty new_workers).manager.old_categorizers =
            m.old_categorizers.set i
              { block_number := G.block_number
                workers := G.workers ++
                  (Split (SortWorkers new_workers) m.subscribed_earliest_block_number).1 } ∧
          (m.register earliest_of_empty new_workers).manager.old_categorizers.length =
            m.old_categorizers.length ∧
          (m.register earliest_of_empty new_workers).started_drivers = []) ∧
      (FirstGroupGreaterThan m.old_categorizers
            (EarliestBlockNumber earliest_of_empty
              (Split (SortWorkers new_workers) m.subscribed_earliest_block_number).1) = none →
        (m.register earliest_of_empty new_workers).manager.old_categorizers =
            m.old_categorizers ++
              [{ block_number := EarliestBlockNumber earliest_of_empty
                    (Split (SortWorkers new_workers) m.subscribed_earliest_block_number).1
                 workers :=
                    (Split (SortWorkers new_workers) m.subscribed_earliest_block_number).1 }] ∧
          (m.register earliest_of_empty new_workers).manager.old_categorizers.length =
            m.old_categorizers.length + 1 ∧
          (m.register earliest_of_empty new_workers).started_drivers =
            [m.old_categorizers.length]) := by
  refine ⟨EarliestBlockNumber_spec earliest_of_empty _ hne, ?_, ?_⟩
  · intro i G hf
    have hg := FirstGroupGreaterThan_some _ _ i G hf
    refine ⟨hg.1, hg.2, ?_, ?_, ?_⟩ <;>
      simp [Manager.register, hf, Manager.add_current_workers, OldWorkerGroup.add_workers]
  · intro hf
    refine ⟨?_, ?_, ?_⟩ <;>
      simp [Manager.register, hf, Manager.add_current_workers, NewGroup]

theorem registration_joins_or_creates_witness :
    (Split (SortWorkers [workerOf "0xc" 400])
        oneGroupManager.subscribed_earliest_block_number).1 ≠ [] ∧
      (oneGroupManager.register 0 [workerOf "0xc" 400]).manager.old_categorizers =
        [{ block_number := 500, workers := [workerOf "0xa" 500, workerOf "0xc" 400] }] ∧
      (Split (SortWorkers [workerOf "0xb" 120, workerOf "0xa" 100])
        edgeManager.subscribed_earliest_block_number).1 ≠ [] ∧
      (edgeManager.register 0 [workerOf "0xb" 120, workerOf "0xa" 100]).manager.old_categorizers
        = [{ block_number := 100, workers := [workerOf "0xa" 100, workerOf "0xb" 120] }] :=
  ⟨by decide,
    ((registration_joins_or_creates oneGroupManager 0 [workerOf "0xc" 400]
      (by decide)).2.1 0 { block_number := 500, workers := [workerOf "0xa" 500] }
      (by decide)).2.2.1.trans (by decide),
    by decide,
    ((registration_joins_or_creates edgeManager 0 [workerOf "0xb" 120, workerOf "0xa" 100]
      (by decide)).2.2 (by decide)).1.trans (by decide)⟩

/-- C17 (evaluation at the failing input): the live edge is 1000, there is no old group,
and the request registers one worker whose progress is 1000, so the behind set is
empty. The step calls `EarliestBlockNumber` on the empty set, creates a new group that
has no workers, whatever block number that call returns, and starts a catch-up driver
for it; the worker itself is added to `current_workers`. -/
theorem registration_with_empty_behind_creates_group (earliest_of_empty : Nat) :
    liveManager.subscribed_earliest_block_number = 1000 ∧
      liveManager.old_categorizers = [] ∧
      (Split (SortWorkers [workerOf "0xa" 1000])
        liveManager.subscribed_earliest_block_number).1 = [] ∧
      (liveManager.register earliest_of_empty [workerOf "0xa" 1000]).earliest_argument = [] ∧
      (liveManager.register earliest_of_empty [workerOf "0xa" 1000]).manager.old_categorizers =
        [{ block_number := earliest_of_empty, workers := [] }] ∧
      (liveManager.register earliest_of_empty [workerOf "0xa" 1000]).started_drivers = [0] ∧
      (liveManager.register earliest_of_empty [workerOf "0xa" 1000]).manager.current_workers =
        [workerOf "0xa" 1000] := by
  have hsplit : Split (SortWorkers [workerOf "0xa" 1000])
      liveManager.subscribed_earliest_block_number = ([], [workerOf "0xa" 1000]) := by decide
  have hold : liveManager.old_categorizers = [] := by decide
  have hcur : liveManager.current_workers = [] := by decide
  refine ⟨by decide, hold, by rw [hsplit], ?_, ?_, ?_, ?_⟩ <;>
    simp [Manager.register, hsplit, hold, hcur, FirstGroupGreaterThan, EarliestBlockNumber,
      NewGroup, Manager.add_current_workers]

theorem Manager.subscribe_iteration_workers (m : Manager) (reply : BroadcastReply) :
    (m.subscribe_iteration reply).old_categorizers = m.old_categorizers ∧
      (m.subscribe_iteration reply).current_workers = m.current_workers := by
  simp only [Manager.subscribe_iteration]
  split_ifs <;> exact ⟨rfl, rfl⟩

theorem categorize_group_workers_addresses
    (categorize : Worker → List Log → CategorizeResult)
    (hcat : ∀ w logs, (categorize w logs).worker.smartcontract.Address = w.smartcontract.Address)
    (all_logs : List Log) (workers : List Worker) (block_number_to : Nat) :
    (categorize_group_workers categorize all_logs workers block_number_to).workers.map
        (fun w => w.smartcontract.Address) =
      workers.map (fun w => w.smartcontract.Address) := by
  rw [categorize_group_workers_workers, List.map_map]
  apply List.map_congr_left
  intro w _
  simp only [Function.comp]
  split_ifs
  · rfl
  · exact hcat w _

theorem catch_up_addresses_perm (categorize : Worker → List Log → CategorizeResult)
    (hcat : ∀ w logs, (categorize w logs).worker.smartcontract.Address = w.smartcontract.Address)
    (m : Manager) (i : Nat) (response : Except String (List Log)) :
    (m.categorize_old_iteration i categorize response).manager.worker_addresses.Perm
      m.worker_addresses := by
  cases hg : m.old_categorizers[i]? with
  | none => simp [Manager.categorize_old_iteration, hg]
  | some group =>
    cases response with
    | error e => rw [Manager.categorize_old_iteration_error m i group categorize e hg]
    | ok all_logs =>
      have hok := Manager.categorize_old_iteration_ok m i group categorize all_logs hg
      have haddr := categorize_group_workers_addresses categorize hcat all_logs group.workers
        (uint64_add group.block_number 1)
      by_cases hle : m.subscribed_earliest_block_number ≤
          (m.categorize_old_iteration i categorize (Except.ok all_logs)).block_number
      · rw [(hok.1 hle).1]
        have herase := (groups_workers_eraseIdx m.old_categorizers i group hg).map
          (fun w => w.smartcontract.Address)
        simp only [Manager.worker_addresses, List.map_append, haddr] at herase ⊢
        calc (List.map (fun w => w.smartcontract.Address)
                (groups_workers (m.old_categorizers.eraseIdx i)) ++
              (List.map (fun w => w.smartcontract.Address) m.current_workers ++
                List.map (fun w => w.smartcontract.Address) group.workers)).Perm
              (List.map (fun w => w.smartcontract.Address)
                (groups_workers (m.old_categorizers.eraseIdx i)) ++
              (List.map (fun w => w.smartcontract.Address) group.workers ++
                List.map (fun w => w.smartcontract.Address) m.current_workers)) :=
              List.Perm.append_left _ List.perm_append_comm
          _ = (List.map (fun w => w.smartcontract.Address)
                (groups_workers (m.old_categorizers.eraseIdx i)) ++
              List.map (fun w => w.smartcontract.Address) group.workers) ++
                List.map (fun w => w.smartcontract.Address) m.current_workers := by simp
          _ |>.Perm (List.map (fun w => w.smartcontract.Address)
                (groups_workers m.old_categorizers) ++
              List.map (fun w => w.smartcontract.Address) m.current_workers) :=
              List.Perm.append_right _ herase
      · rw [(hok.2 (Nat.lt_of_not_le hle)).1]
        have hset := (groups_workers_set m.old_categorizers i group
          { block_number :=
              (m.categorize_old_iteration i categorize (Except.ok all_logs)).block_number
            workers := (categorize_group_workers categorize all_logs group.workers
              (uint64_add group.block_number 1)).workers } hg).map
          (fun w => w.smartcontract.Address)
        simp only [Manager.worker_addresses, List.map_append, haddr] at hset ⊢
        exact List.Perm.append_right _ ((List.perm_append_right_iff _).mp hset)

theorem runWorkerOps_addresses_perm (categorize : Worker → List Log → CategorizeResult)
    (hcat : ∀ w logs, (categorize w logs).worker.smartcontract.Address = w.smartcontract.Address)
    (earliest_of_empty : Nat) (ops : List WorkerOp) :
    ∀ m : Manager,
      (Manager.runWorkerOps categorize earliest_of_empty m ops).worker_addresses.Perm
        (m.worker_addresses ++
          (registered_workers ops).map (fun w => w.smartcontract.Address)) := by
  induction ops with
  | nil => intro m; simp [Manager.runWorkerOps, registered_workers]
  | cons op ops ih =>
    intro m
    simp only [Manager.runWorkerOps]
    refine (ih _).trans ?_
    cases op with
    | register new_workers =>
      have h := (register_workers_perm m earliest_of_empty new_workers).map
        (fun w => w.smartcontract.Address)
      simp only [Manager.applyWorkerOp, registered_workers, List.map_append,
        Manager.worker_addresses] at h ⊢
      rw [← List.append_assoc]
      exact List.Perm.append_right _ h
    | catch_up i response =>
      simp only [Manager.applyWorkerOp, registered_workers]
      exact List.Perm.append_right _ (catch_up_addresses_perm categorize hcat m i response)
    | broadcast reply =>
      have h := Manager.subscribe_iteration_workers m reply
      simp only [Manager.applyWorkerOp, registered_workers, Manager.worker_addresses, h.1, h.2]
      exact List.Perm.refl _

/-- C16 (the claim as stated fails): after the first broadcast two requests register a
worker for the same contract "0xa", or one request registers it twice; both workers are
kept, so the addresses of the workers of the manager are not pairwise distinct. -/
theorem same_address_registered_twice_coexists :
    (Manager.runWorkerOps (Worker.categorize transferDecode) 0 (NewManager { Id := "1" })
        sameAddressInTwoRequests).worker_addresses = ["0xa", "0xa"] ∧
      ¬ (Manager.runWorkerOps (Worker.categorize transferDecode) 0 (NewManager { Id := "1" })
        sameAddressInTwoRequests).worker_addresses.Nodup ∧
      (Manager.runWorkerOps (Worker.categorize transferDecode) 0 (NewManager { Id := "1" })
        sameAddressTwiceInOneRequest).worker_addresses = ["0xa", "0xa"] ∧
      ¬ (Manager.runWorkerOps (Worker.categorize transferDecode) 0 (NewManager { Id := "1" })
        sameAddressTwiceInOneRequest).worker_addresses.Nodup := by
  decide

/-- C16 (amended): in every manager state reachable from `NewManager` by broadcasts,
registration steps and catch-up passes (with their promotions), when `worker.categorize`
keeps the address of the worker, the addresses of the workers in `current_workers` and in
the old groups are, up to order, the addresses of all workers registered so far, one
for each registered worker; hence they are pairwise distinct exactly when the
addresses of the registered workers are pairwise distinct. -/
theorem worker_addresses_are_the_registered_ones
    (categorize : Worker → List Log → CategorizeResult)
    (hcat : ∀ w logs, (categorize w logs).worker.smartcontract.Address = w.smartcontract.Address)
    (earliest_of_empty : Nat) (network : Network) (ops : List WorkerOp) :
    (Manager.runWorkerOps categorize earliest_of_empty (NewManager network)
        ops).worker_addresses.Perm
        ((registered_workers ops).map (fun w => w.smartcontract.Address)) ∧
      ((Manager.runWorkerOps categorize earliest_of_empty (NewManager network)
          ops).worker_addresses.Nodup ↔
        ((registered_workers ops).map (fun w => w.smartcontract.Address)).Nodup) := by
  have h := runWorkerOps_addresses_perm categorize hcat earliest_of_empty ops
    (NewManager network)
  have h0 : (NewManager network).worker_addresses = [] := rfl
  rw [h0, List.nil_append] at h
  exact ⟨h, h.nodup_iff⟩

theorem Worker.categorize_keeps_address (decode : Log → Option EventLog) (w : Worker)
    (logs : List Log) :
    (Worker.categorize decode w logs).worker.smartcontract.Address = w.smartcontract.Address :=
  rfl

theorem worker_addresses_are_the_registered_ones_witness :
    ((registered_workers distinctAddressesRun).map (fun w => w.smartcontract.Address)).Nodup ∧
      (Manager.runWorkerOps (Worker.categorize transferDecode) 0 (NewManager { Id := "1" })
        distinctAddressesRun).worker_addresses.Nodup :=
  ⟨by decide,
    (worker_addresses_are_the_registered_ones (Worker.categorize transferDecode)
      (Worker.categorize_keeps_address transferDecode) 0 { Id := "1" }
      distinctAddressesRun).2.mpr (by decide)⟩

end Categorizer

/-! ## The network type -/

namespace BlockchainNetwork

/-- C24: `NewNetworkType` accepts exactly the three supported flags. For every string s
the returned error is nil exactly when s is "all", "evm" or "imx", the comparison being
case-sensitive ("EVM" is refused), and the returned value is s in both cases. -/
theorem new_network_type_accepts_exactly_three_flags (s : String) :
    ((NewNetworkType s).2 = none ↔ (s = "all" ∨ s = "evm" ∨ s = "imx")) ∧
      (NewNetworkType s).1 = s ∧
      ((NewNetworkType s).2 ≠ none → (NewNetworkType s).2 = some "unsupported network type") ∧
      (NewNetworkType "EVM").2 ≠ none := by
  refine ⟨?_, ?_, ?_, by decide⟩
  · unfold NewNetworkType NetworkType.valid ALL EVM IMX
    by_cases h1 : s = "all"
    · simp [h1]
    · by_cases h2 : s = "evm"
      · simp [h2]
      · by_cases h3 : s = "imx"
        · simp [h3]
        · simp [h1, h2, h3]
  · simp only [NewNetworkType]
    split_ifs <;> rfl
  · simp only [NewNetworkType]
    split_ifs <;> simp

theorem new_network_type_accepts_exactly_three_flags_witness :
    (NewNetworkType "evm").2 = none ∧ (NewNetworkType "evm").1 = "evm" ∧
      (NewNetworkType "btc").2 = some "unsupported network type" ∧
      (NewNetworkType "btc").1 = "btc" :=
  ⟨(new_network_type_accepts_exactly_three_flags "evm").1.mpr (by decide),
    (new_network_type_accepts_exactly_three_flags "evm").2.1,
    (new_network_type_accepts_exactly_three_flags "btc").2.2.1 (by decide),
    (new_network_type_accepts_exactly_three_flags "btc").2.1⟩

end BlockchainNetwork

/-! ## The envelope of a request -/

namespace Message

theorem utf8ByteSize_pos_iff (s : String) : s.utf8ByteSize > 0 ↔ s ≠ "" := by
  cases s with
  | mk data =>
    cases data with
    | nil => simp [String.utf8ByteSize, String.utf8ByteSize.go]
    | cons c cs =>
      constructor
      · intro _ h
        have := congrArg String.data h
        simp at this
      · intro _
        simp only [String.utf8ByteSize, String.utf8ByteSize.go]
        have := Char.utf8Size_pos c
        omega

/-- C23: the framing of `ZmqEnvelope`. When `Bytes` succeeds with the body s, the
envelope is the three parts conId, "", s when conId is not empty and the two parts "", s
when conId is empty; `ZmqEnvelope` returns an error, and no envelope, exactly when
`Bytes` returns an error, as it does when the command fails `ValidCommand`. -/
theorem zmq_envelope_framing (serializer : Serializer) (request : Request) :
    (∀ s : String, request.Bytes serializer = Except.ok s →
        (request.conId ≠ "" →
          request.ZmqEnvelope serializer = Except.ok [request.conId, "", s]) ∧
        (request.conId = "" → request.ZmqEnvelope serializer = Except.ok ["", s])) ∧
      ((∃ e, request.ZmqEnvelope serializer = Except.error e) ↔
        (∃ e, request.Bytes serializer = Except.error e)) ∧
      (∀ e, request.Bytes serializer = Except.error e →
        request.ZmqEnvelope serializer = Except.error ("request.ZmqEnvelope: " ++ e)) ∧
      (∀ e, serializer.ValidCommand request.Command = some e →
        request.Bytes serializer = Except.error ("failed to validate command: " ++ e) ∧
          request.ZmqEnvelope serializer =
            Except.error ("request.ZmqEnvelope: " ++ ("failed to validate command: " ++ e))) := by
  refine ⟨?_, ?_, ?_, ?_⟩
  · intro s hs
    constructor
    · intro hne
      simp [Request.ZmqEnvelope, hs, (utf8ByteSize_pos_iff request.conId).mpr hne]
    · intro he
      simp [Request.ZmqEnvelope, hs, he]
      decide
  · cases hb : request.Bytes serializer with
    | error e => simp [Request.ZmqEnvelope, hb]
    | ok s =>
      simp only [Request.ZmqEnvelope, hb]
      split_ifs <;> simp
  · intro e he
    simp [Request.ZmqEnvelope, he]
  · intro e he
    have hb : request.Bytes serializer =
        Except.error ("failed to validate command: " ++ e) := by
      simp [Request.Bytes, he]
    exact ⟨hb, by simp [Request.ZmqEnvelope, hb]⟩

theorem zmq_envelope_framing_witness :
    routedRequest.ZmqEnvelope exampleSerializer = Except.ok ["con-7", "", "(cmd)"] ∧
      tracedRequest.ZmqEnvelope exampleSerializer = Except.ok ["", "(cmd)"] ∧
      emptyCommandRequest.ZmqEnvelope exampleSerializer =
        Except.error "request.ZmqEnvelope: failed to validate command: command is empty" :=
  ⟨((zmq_envelope_framing exampleSerializer routedRequest).1 "(cmd)" rfl).1 (by decide),
    ((zmq_envelope_framing exampleSerializer tracedRequest).1 "(cmd)" rfl).2 rfl,
    ((zmq_envelope_framing exampleSerializer emptyCommandRequest).2.2.2 "command is empty"
      rfl).2⟩

end Message

/-! ## Catch-up passes without logs -/

namespace Categorizer

open DataType

theorem categorize_group_workers_no_logs (categorize : Worker → List Log → CategorizeResult)
    (all_logs : List Log) (workers : List Worker)
    (hnolog : ∀ w ∈ workers, FilterByAddress all_logs w.smartcontract.Address = []) :
    ∀ block_number_to : Nat,
      categorize_group_workers categorize all_logs workers block_number_to =
        { workers := workers, block_number_to := block_number_to, pushes := [],
          recent_block_numbers := [] } := by
  induction workers with
  | nil => intro b; rfl
  | cons w rest ih =>
    intro b
    have hw := hnolog w (List.mem_cons_self _ _)
    have hrest := ih (fun x hx => hnolog x (List.mem_cons_of_mem _ hx)) b
    simp [categorize_group_workers, hw, hrest]

theorem Manager.categorize_old_iteration_no_logs (m : Manager) (i : Nat)
    (group : OldWorkerGroup) (categorize : Worker → List Log → CategorizeResult)
    (all_logs : List Log) (hg : m.old_categorizers[i]? = some group)
    (hnolog : ∀ w ∈ group.workers, FilterByAddress all_logs w.smartcontract.Address = []) :
    m.categorize_old_iteration i categorize (Except.ok all_logs) =
      if m.subscribed_earliest_block_number ≤ uint64_add group.block_number 1 then
        { manager :=
            { m with
              current_workers := m.current_workers ++ group.workers
              old_categorizers := m.old_categorizers.eraseIdx i }
          pushes := [], recent_block_numbers := []
          block_number_from := uint64_add group.block_number 1
          block_number := uint64_add group.block_number 1, finished := true }
      else
        { manager :=
            { m with
              old_categorizers := m.old_categorizers.set i
                { block_number := uint64_add group.block_number 1, workers := group.workers } }
          pushes := [], recent_block_numbers := []
          block_number_from := uint64_add group.block_number 1
          block_number := uint64_add group.block_number 1, finished := false } := by
  simp only [Manager.categorize_old_iteration, hg,
    categorize_group_workers_no_logs categorize all_logs group.workers hnolog,
    Manager.add_current_workers]

theorem eraseIdx_set_same {α : Type} (l : List α) :
    ∀ (i : Nat) (a : α), (l.set i a).eraseIdx i = l.eraseIdx i := by
  induction l with
  | nil => intro i a; rfl
  | cons x rest ih =>
    intro i a
    cases i with
    | zero => rfl
    | succ j => simp [ih j a]

theorem catch_up_run_without_logs (categorize : Worker → List Log → CategorizeResult)
    (i : Nat) (responses : List (List Log)) :
    ∀ (m : Manager) (group : OldWorkerGroup), m.old_categorizers[i]? = some group →
      (∀ logs ∈ responses, ∀ w ∈ group.workers,
        FilterByAddress logs w.smartcontract.Address = []) →
      group.block_number < m.subscribed_earliest_block_number →
      m.subscribed_earliest_block_number < 2 ^ 64 →
      responses.length = m.subscribed_earliest_block_number - group.block_number →
      m.catch_up_run i categorize (responses.map Except.ok) =
        ({ m with
            current_workers := m.current_workers ++ group.workers
            old_categorizers := m.old_categorizers.eraseIdx i }, true) := by
  induction responses with
  | nil =>
    intro m group _ _ hlt _ hlen
    simp only [List.length_nil] at hlen
    omega
  | cons logs rest ih =>
    intro m group hg hnolog hlt hedge hlen
    have hstep := Manager.categorize_old_iteration_no_logs m i group categorize logs hg
      (hnolog logs (List.mem_cons_self _ _))
    have hadd : uint64_add group.block_number 1 = group.block_number + 1 := by
      unfold uint64_add
      exact Nat.mod_eq_of_lt (by omega)
    have hi : i < m.old_categorizers.length := (List.getElem?_eq_some.mp hg).1
    simp only [List.map_cons, Manager.catch_up_run, hstep, hadd]
    by_cases hle : m.subscribed_earliest_block_number ≤ group.block_number + 1
    · simp [hle]
    · simp only [hle, if_false]
      have hrec := ih
        { m with
          old_categorizers := m.old_categorizers.set i
            { block_number := group.block_number + 1, workers := group.workers } }
        { block_number := group.block_number + 1, workers := group.workers }
        (by simp [List.getElem?_set_self hi])
        (fun l hl w hw => hnolog l (List.mem_cons_of_mem _ hl) w hw)
        (by simp only; omega) hedge
        (by simp only [List.length_cons] at hlen; simp only; omega)
      simp only [Bool.false_eq_true, if_false]
      rw [hrec]
      simp [eraseIdx_set_same]

/-- C22: the empty catch-up response. When the range query succeeds and the response
holds no log for any worker of the group, no `worker.categorize` call is made, nothing
is sent, the workers stay as they were and `group.block_number` becomes its previous
value plus 1 in unsigned 64-bit arithmetic; the group is promoted when that value
reaches the live edge. So a group below the live edge is promoted, with its workers
unchanged, after as many such passes as the live edge is above its cursor. -/
theorem empty_catch_up_response_advances_by_one (m : Manager) (i : Nat)
    (group : OldWorkerGroup) (categorize : Worker → List Log → CategorizeResult)
    (all_logs : List Log) (hg : m.old_categorizers[i]? = some group)
    (hnolog : ∀ w ∈ group.workers, FilterByAddress all_logs w.smartcontract.Address = []) :
    (m.categorize_old_iteration i categorize (Except.ok all_logs)).recent_block_numbers = [] ∧
      (m.categorize_old_iteration i categorize (Except.ok all_logs)).pushes = [] ∧
      (m.categorize_old_iteration i categorize (Except.ok all_logs)).block_number =
        (group.block_number + 1) % 2 ^ 64 ∧
      (m.subscribed_earliest_block_number ≤ (group.block_number + 1) % 2 ^ 64 →
        (m.categorize_old_iteration i categorize (Except.ok all_logs)).manager =
            { m with
              current_workers := m.current_workers ++ group.workers
              old_categorizers := m.old_categorizers.eraseIdx i } ∧
          (m.categorize_old_iteration i categorize (Except.ok all_logs)).finished = true) ∧
      ((group.block_number + 1) % 2 ^ 64 < m.subscribed_earliest_block_number →
        (m.categorize_old_iteration i categorize (Except.ok all_logs)).manager =
            { m with
              old_categorizers := m.old_categorizers.set i
                { block_number := (group.block_number + 1) % 2 ^ 64
                  workers := group.workers } } ∧
          (m.categorize_old_iteration i categorize (Except.ok all_logs)).finished = false) ∧
      (∀ responses : List (List Log),
        (∀ logs ∈ responses, ∀ w ∈ group.workers,
          FilterByAddress logs w.smartcontract.Address = []) →
        group.block_number < m.subscribed_earliest_block_number →
        m.subscribed_earliest_block_number < 2 ^ 64 →
        responses.length = m.subscribed_earliest_block_number - group.block_number →
        m.catch_up_run i categorize (responses.map Except.ok) =
          ({ m with
              current_workers := m.current_workers ++ group.workers
              old_categorizers := m.old_categorizers.eraseIdx i }, true)) := by
  have hstep := Manager.categorize_old_iteration_no_logs m i group categorize all_logs hg hnolog
  have hadd : uint64_add group.block_number 1 = (group.block_number + 1) % 2 ^ 64 := rfl
  rw [hadd] at hstep
  refine ⟨?_, ?_, ?_, ?_, ?_, ?_⟩
  · rw [hstep]; split_ifs <;> rfl
  · rw [hstep]; split_ifs <;> rfl
  · rw [hstep]; split_ifs <;> rfl
  · intro hle
    rw [hstep, if_pos hle]
    exact ⟨rfl, rfl⟩
  · intro hlt
    rw [hstep, if_neg (Nat.not_le.mpr hlt)]
    exact ⟨rfl, rfl⟩
  · intro responses hno hlt hedge hlen
    exact catch_up_run_without_logs categorize i responses m group hg hno hlt hedge hlen

theorem empty_catch_up_response_advances_by_one_witness :
    nearEdgeManager.old_categorizers[0]? =
        some { block_number := 9998, workers := [workerOf "0xa" 9998] } ∧
      (nearEdgeManager.categorize_old_iteration 0 (Worker.categorize transferDecode)
        (Except.ok [logOf "0xz" 9999])).block_number = 9999 ∧
      nearEdgeManager.catch_up_run 0 (Worker.categorize transferDecode)
          [Except.ok [logOf "0xz" 9999], Except.ok []] =
        ({ nearEdgeManager with
            current_workers := [workerOf "0xa" 9998], old_categorizers := [] }, true) :=
  ⟨by decide,
    (empty_catch_up_response_advances_by_one nearEdgeManager 0
      { block_number := 9998, workers := [workerOf "0xa" 9998] }
      (Worker.categorize transferDecode) [logOf "0xz" 9999] (by decide) (by decide)).2.2.1,
    ((empty_catch_up_response_advances_by_one nearEdgeManager 0
      { block_number := 9998, workers := [workerOf "0xa" 9998] }
      (Worker.categorize transferDecode) [logOf "0xz" 9999] (by decide) (by decide)).2.2.2.2.2
      [[logOf "0xz" 9999], []] (by decide) (by decide) (by decide) (by decide)).trans
      (by decide)⟩

end Categorizer

/-! ## The block loop of the live driver -/

namespace Categorizer

open DataType

theorem Manager.pop_block_some (m m1 : Manager) (block : Block)
    (h : m.pop_block = some (block, m1)) :
    m1.subscribed_blocks.l.length + 1 = m.subscribed_blocks.l.length ∧
      m.subscribed_blocks.l.head? = some (blockItem block) ∧
      m1.current_workers = m.current_workers := by
  unfold Manager.pop_block at h
  cases hl : m.subscribed_blocks.l with
  | nil =>
    have hp : m.subscribed_blocks.Pop = (Iface.nil, m.subscribed_blocks) :=
      Queue.pop_of_empty _ (by simp [Queue.IsEmpty, Queue.Len, hl])
    rw [hp] at h
    simp at h
  | cons x rest =>
    rw [Queue.pop_of_cons _ x rest hl] at h
    cases x with
    | nil => simp at h
    | val t b =>
      cases t with
      | ptrBlock =>
        simp only [Option.some.injEq, Prod.mk.injEq] at h
        obtain ⟨rfl, rfl⟩ := h
        simp [blockItem]
      | int => simp at h
      | string => simp at h

/-- The block loop never goes back to the polling tick. -/
theorem Manager.consume_blocks_never_returns (categorize : Worker → List Log → CategorizeResult)
    (fuel : Nat) :
    ∀ m : Manager, (m.consume_blocks categorize fuel).outcome ≠ DrainOutcome.returned := by
  induction fuel with
  | zero => intro m; simp [Manager.consume_blocks]
  | succ n ih =>
    intro m
    simp only [Manager.consume_blocks]
    cases hp : m.pop_block with
    | none => simp
    | some r => exact ih _

/-- Followed for more rounds than the queue holds elements, the block loop ends in the
panic of the type assertion on the nil value that `Pop` returns for the empty queue (or
on a value that is not a block). -/
theorem Manager.consume_blocks_panics (categorize : Worker → List Log → CategorizeResult)
    (fuel : Nat) :
    ∀ m : Manager, m.subscribed_blocks.l.length < fuel →
      (m.consume_blocks categorize fuel).outcome = DrainOutcome.panicked := by
  induction fuel with
  | zero => intro m h; omega
  | succ n ih =>
    intro m h
    simp only [Manager.consume_blocks]
    cases hp : m.pop_block with
    | none => rfl
    | some r =>
      obtain ⟨block, m1⟩ := r
      have hlen := (Manager.pop_block_some m m1 block hp).1
      exact ih _ (by simp only; omega)

/-- Every pass of the live driver that enters the block loop, with at least one current
worker and a queue that is not empty, ends in that panic. -/
theorem Manager.categorize_current_iteration_panics
    (categorize : Worker → List Log → CategorizeResult) (m : Manager) (fuel : Nat)
    (hworkers : m.current_workers ≠ []) (hqueue : m.subscribed_blocks.IsEmpty = false)
    (hfuel : m.subscribed_blocks.l.length < fuel) :
    (m.categorize_current_iteration categorize fuel).outcome = DrainOutcome.panicked := by
  have hlen : m.current_workers.length ≠ 0 := by
    intro h
    exact hworkers (List.length_eq_zero.mp h)
  simp only [Manager.categorize_current_iteration, hlen, hqueue, false_or, Bool.false_eq_true,
    if_false]
  exact Manager.consume_blocks_panics categorize fuel m hfuel

/-- C21 (evaluation at the failing input): the manager has the current worker of "0xa"
and the blocks 1000 and 1001 in its queue. One pass of the live driver takes the two
blocks in FIFO order, sends one message (block 1000 is not above the progress of the
worker), and then, as the block loop has no exit, calls `Pop` on the empty queue and
uses the nil value in the type assertion: the pass ends in a run-time panic and does not
go back to the polling tick, however many rounds are followed. -/
theorem live_driver_pass_ends_in_panic :
    drainManager.current_workers = [workerOf "0xa" 1000] ∧
      drainManager.subscribed_blocks.l.map TypeOf =
        [some RType.ptrBlock, some RType.ptrBlock] ∧
      (drainManager.categorize_current_iteration (Worker.categorize transferDecode)
        3).popped.map (fun block => block.BlockNumber) = [1000, 1001] ∧
      (drainManager.categorize_current_iteration (Worker.categorize transferDecode)
        3).pushes.length = 1 ∧
      (drainManager.categorize_current_iteration (Worker.categorize transferDecode)
        3).manager.subscribed_blocks.Pop.1 = Iface.nil ∧
      (drainManager.categorize_current_iteration (Worker.categorize transferDecode)
        3).manager.pop_block = none ∧
      (drainManager.categorize_current_iteration (Worker.categorize transferDecode)
        3).outcome = DrainOutcome.panicked ∧
      (drainManager.categorize_current_iteration (Worker.categorize transferDecode)
        1000).outcome = DrainOutcome.panicked := by
  decide

end Categorizer
